import Mathlib

/-! Verification of the PlamoMixer color-mixing engine (`utils.py`) against its
specification: a shallow embedding of the Kubelka-Munk mixing model, the hybrid
Lab mixing model, the DE76 color distance, and the grid-search recipe
optimizer `find_best_mix_optimized`.  Python floats are modelled as real
numbers; the places where the Python code can raise (numpy broadcast errors,
indexing an empty candidate list) are made explicit with `Except`. -/

namespace PlamoMixer

/-- A CIE Lab color triple, the value type used everywhere a color appears. -/
@[ext]
structure LabColor where
  L : ℝ
  a : ℝ
  b : ℝ

/-- One row of the pigment catalog DataFrame. -/
structure PigmentRow where
  code : String
  name : String
  manufacturer : String
  category : String
  L : ℝ
  a : ℝ
  b : ℝ

/-- Errors the Python runtime can surface from the engine.  `indexError`
models indexing an empty list/array, `valueError` models a numpy broadcast
failure.  `emptyCatalog` is the dedicated condition the specification names
for an empty filtered catalog; it is part of the model so that we can state
whether the code ever reports it. -/
inductive PyError where
  | indexError
  | valueError
  | emptyCatalog
deriving DecidableEq

/-- utils.py: `OPTIMAL_GAMMA = 2.2`. -/
noncomputable def OPTIMAL_GAMMA : ℝ := 2.2

/-- utils.py: `epsilon = 1e-6`, the reflectance clamp. -/
noncomputable def epsilon : ℝ := 1 / 1000000

/-- `np.clip` on a scalar. -/
noncomputable def np_clip (x lo hi : ℝ) : ℝ := min (max x lo) hi

/-- Elementwise product of two 1-D arrays under numpy broadcasting; the
callers only reach this with compatible shapes (equal lengths, or one of the
lengths equal to 1). -/
noncomputable def np_mul (xs ys : List ℝ) : List ℝ :=
  if xs.length = ys.length then List.zipWith (fun x y => x * y) xs ys
  else if xs.length = 1 then ys.map (fun y => xs.headD 0 * y)
  else xs.map (fun x => x * ys.headD 0)

/-- `np.sum(xs * ys)`. -/
noncomputable def np_dot (xs ys : List ℝ) : ℝ := (np_mul xs ys).sum

/-- `np.min` of a nonempty 1-D array (junk value 0 on the empty array, which
the wrappers rule out before this is reached). -/
noncomputable def np_min : List ℝ → ℝ
  | [] => 0
  | x :: xs => xs.foldl min x

/-- The body of `kubelka_munk_mix` (utils.py lines 99-138): the computation
after the zero-total early return, on broadcast-compatible shapes. -/
noncomputable def km_mix_core (colors_lab : List LabColor) (ratios0 : List ℝ)
    (gamma : ℝ) : LabColor :=
  let total := ratios0.sum
  let ratios := ratios0.map (fun r => r / total)
  let L_values := colors_lab.map LabColor.L
  let reflectances_L :=
    L_values.map (fun L => np_clip ((L / 100) ^ gamma) epsilon (1 - epsilon))
  let k_s_L := reflectances_L.map (fun R => (1 - R) ^ 2 / (2 * R))
  let mixed_k_s_L := np_dot k_s_L ratios
  let mixed_R_L := 1 + mixed_k_s_L - Real.sqrt (mixed_k_s_L ^ 2 + 2 * mixed_k_s_L)
  let mixed_L := (np_clip mixed_R_L 0 1) ^ (1 / gamma) * 100
  let a_values := colors_lab.map LabColor.a
  let k_s_a := a_values.map (fun a => 1 + |a| / 50)
  let mixed_k_s_a := np_dot k_s_a ratios
  let decay_a := 1 / (1 + mixed_k_s_a / 10)
  let mixed_a := np_dot a_values ratios * decay_a
  let b_values := colors_lab.map LabColor.b
  let k_s_b := b_values.map (fun b => 1 + |b| / 50)
  let mixed_k_s_b := np_dot k_s_b ratios
  let decay_b := 1 / (1 + mixed_k_s_b / 10)
  let mixed_b := np_dot b_values ratios * decay_b
  ⟨mixed_L, mixed_a, mixed_b⟩

/-- utils.py `kubelka_munk_mix`.  The source returns the neutral fallback on a
zero ratio total before touching numpy; after that, numpy raises IndexError on
`colors_lab[:, 0]` for an empty color array and ValueError when the shapes are
not broadcast-compatible.  The `Except` wrapper makes those exits explicit. -/
noncomputable def kubelka_munk_mix (colors_lab : List LabColor) (ratios : List ℝ)
    (gammaOpt : Option ℝ) : Except PyError LabColor :=
  let gamma := gammaOpt.getD OPTIMAL_GAMMA
  if ratios.sum = 0 then .ok ⟨50, 0, 0⟩
  else if colors_lab.length = 0 then .error .indexError
  else if colors_lab.length = ratios.length ∨ colors_lab.length = 1 ∨ ratios.length = 1 then
    .ok (km_mix_core colors_lab ratios gamma)
  else .error .valueError

/-- The body of `simple_lab_mix` (utils.py lines 160-215). -/
noncomputable def simple_lab_mix_core (colors_lab : List LabColor) (ratios0 : List ℝ)
    (gamma : ℝ) : LabColor :=
  let total := ratios0.sum
  let ratios := ratios0.map (fun r => r / total)
  let L_values := colors_lab.map LabColor.L
  let L_linear := np_dot L_values ratios
  let reflectances :=
    L_values.map (fun L => np_clip ((L / 100) ^ gamma) epsilon (1 - epsilon))
  let k_s_ratios := reflectances.map (fun R => (1 - R) ^ 2 / (2 * R))
  let mixed_k_s := np_dot k_s_ratios ratios
  let mixed_R := np_clip (1 + mixed_k_s - Real.sqrt (mixed_k_s ^ 2 + 2 * mixed_k_s)) 0 1
  let L_km := mixed_R ^ (1 / gamma) * 100
  let min_L := np_min L_values
  let darkness_factor := np_clip ((100 - min_L) / 100) 0 1
  let km_weight := 0.3 + 0.5 * darkness_factor
  let mixed_L := L_linear * (1 - km_weight) + L_km * km_weight
  let mixed_a := np_dot (colors_lab.map LabColor.a) ratios
  let mixed_b := np_dot (colors_lab.map LabColor.b) ratios
  let n_colors : ℕ := (ratios.filter (fun r => decide ((0.01 : ℝ) < r))).length
  let chroma_decay := max 0.7 (1 - ((n_colors : ℝ) - 1) * 0.05)
  let chroma0 := Real.sqrt (mixed_a ^ 2 + mixed_b ^ 2)
  let mixed_chroma := chroma0 * chroma_decay
  if 0 < mixed_chroma ∧ 0 < chroma0 then
    ⟨mixed_L, mixed_a * (mixed_chroma / chroma0), mixed_b * (mixed_chroma / chroma0)⟩
  else ⟨mixed_L, mixed_a, mixed_b⟩

/-- utils.py `simple_lab_mix`, with the same explicit error exits as
`kubelka_munk_mix` (the array expressions have the same shapes). -/
noncomputable def simple_lab_mix (colors_lab : List LabColor) (ratios : List ℝ)
    (gammaOpt : Option ℝ) : Except PyError LabColor :=
  let gamma := gammaOpt.getD OPTIMAL_GAMMA
  if ratios.sum = 0 then .ok ⟨50, 0, 0⟩
  else if colors_lab.length = 0 then .error .indexError
  else if colors_lab.length = ratios.length ∨ colors_lab.length = 1 ∨ ratios.length = 1 then
    .ok (simple_lab_mix_core colors_lab ratios gamma)
  else .error .valueError

/-- utils.py `calculate_delta_e`: the one color-difference function of the
engine.  Its docstring announces ΔE00 but the body (as the docstring itself
then explains) computes the ΔE76 Euclidean distance. -/
noncomputable def calculate_delta_e (target_lab result_lab : LabColor) : ℝ :=
  Real.sqrt ((target_lab.L - result_lab.L) ^ 2 + (target_lab.a - result_lab.a) ^ 2 +
    (target_lab.b - result_lab.b) ^ 2)

/-- Modelled from the spec: §4.1's DE76 metric, "the Euclidean distance
sqrt(dL^2 + da^2 + db^2)", stated from the spec's words as the reference point
for the DE00-vs-DE76 distinctness claim. -/
noncomputable def deltaE76_spec (c1 c2 : LabColor) : ℝ :=
  Real.sqrt ((c1.L - c2.L) ^ 2 + (c1.a - c2.a) ^ 2 + (c1.b - c2.b) ^ 2)

/-- The codes removed by the white/black/silver exclusion filter. -/
def exclude_codes : List String :=
  ["C2", "C8", "C11", "C14", "C33", "C52", "C62",
   "EX-01", "EX-02", "LP-1", "LP-2", "LP-18"]

/-- The catalog filtering at the top of `find_best_mix_optimized`. -/
def filtered_df (available_colors : List PigmentRow)
    (exclude_metallic exclude_white_black : Bool) : List PigmentRow :=
  let df := available_colors
  let df := if exclude_metallic then df.filter (fun row => row.category != "metallic")
    else df
  if exclude_white_black then df.filter (fun row => !(exclude_codes.contains row.code))
  else df

/-- The Lab triple of a catalog row. -/
def row_lab (row : PigmentRow) : LabColor := ⟨row.L, row.a, row.b⟩

/-- The search state: the fields of the Python `best_result` dict. -/
structure BestMix where
  indices : List ℕ
  ratios : List ℝ
  delta_e : ℝ
  mixed_lab : LabColor

/-- The `delta_e < best_delta_e` update; `none` is the initial infinite
`best_delta_e` state. -/
noncomputable def update_best (best : Option BestMix) (cand : BestMix) : Option BestMix :=
  match best with
  | none => some cand
  | some b => if cand.delta_e < b.delta_e then some cand else some b

/-- Pairs in `itertools.combinations(l, 2)` order. -/
def combos2 {α : Type} : List α → List (α × α)
  | [] => []
  | x :: xs => xs.map (fun y => (x, y)) ++ combos2 xs

/-- Triples in `itertools.combinations(l, 3)` order. -/
def combos3 {α : Type} : List α → List (α × α × α)
  | [] => []
  | x :: xs => (combos2 xs).map (fun p => (x, p.1, p.2)) ++ combos3 xs

/-- The two-color ratio grid `[i/20 for i in range(1, 20)]`. -/
noncomputable def grid2 : List ℝ := (List.range' 1 19).map (fun i : ℕ => (i : ℝ) / 20)

/-- The three-color ratio grid `[i/10 for i in range(1, 10)]`. -/
noncomputable def grid3 : List ℝ := (List.range' 1 9).map (fun i : ℕ => (i : ℝ) / 10)

/-- `kubelka_munk_mix` as called from the search and formatting paths, where
the Python call always returns a color (equal-length nonempty inputs with a
nonzero ratio total never raise). -/
noncomputable def km_mix_val (colors_lab : List LabColor) (ratios : List ℝ)
    (gammaOpt : Option ℝ) : LabColor :=
  (kubelka_munk_mix colors_lab ratios gammaOpt).toOption.getD ⟨50, 0, 0⟩

/-- The 1-color pass of the tier search. -/
noncomputable def tier1 (target_lab : LabColor) (all_colors_lab : List LabColor)
    (selected_indices : List ℕ) (best0 : Option BestMix) : Option BestMix :=
  selected_indices.foldl (fun best idx =>
    let lab := all_colors_lab.getD idx ⟨0, 0, 0⟩
    update_best best ⟨[idx], [1], calculate_delta_e target_lab lab, lab⟩) best0

/-- The 2-color grid pass (5% steps). -/
noncomputable def tier2 (target_lab : LabColor) (all_colors_lab : List LabColor)
    (selected_indices : List ℕ) (best0 : Option BestMix) : Option BestMix :=
  (combos2 selected_indices).foldl (fun best0 c =>
    let labs := [all_colors_lab.getD c.1 ⟨0, 0, 0⟩, all_colors_lab.getD c.2 ⟨0, 0, 0⟩]
    grid2.foldl (fun best r1 =>
      let r2 := 1 - r1
      let mixed := km_mix_val labs [r1, r2] none
      update_best best ⟨[c.1, c.2], [r1, r2], calculate_delta_e target_lab mixed, mixed⟩)
      best0) best0

/-- The 3-color grid pass (10% steps; `r3` must itself land in [0.1, 0.9]). -/
noncomputable def tier3 (target_lab : LabColor) (all_colors_lab : List LabColor)
    (selected_indices : List ℕ) (best0 : Option BestMix) : Option BestMix :=
  (combos3 selected_indices).foldl (fun best0 c =>
    let labs := [all_colors_lab.getD c.1 ⟨0, 0, 0⟩, all_colors_lab.getD c.2.1 ⟨0, 0, 0⟩,
      all_colors_lab.getD c.2.2 ⟨0, 0, 0⟩]
    grid3.foldl (fun best1 r1 =>
      grid3.foldl (fun best r2 =>
        let r3 := 1 - r1 - r2
        if r3 < 0.1 ∨ 0.9 < r3 then best
        else
          let mixed := km_mix_val labs [r1, r2, r3] none
          update_best best
            ⟨[c.1, c.2.1, c.2.2], [r1, r2, r3], calculate_delta_e target_lab mixed, mixed⟩)
        best1) best0) best0

/-- The indexed single-pigment DE76 scores (`color_scores` before sorting). -/
noncomputable def color_scores (target_lab : LabColor) (all_colors_lab : List LabColor) :
    List (ℕ × ℝ) :=
  all_colors_lab.enum.map (fun p => (p.1, calculate_delta_e target_lab p.2))

/-- Python's `list.sort(key=lambda x: x[1])` is a stable ascending sort, so it
returns the same list as a stable insertion sort by the score. -/
noncomputable def sorted_scores (scores : List (ℕ × ℝ)) : List (ℕ × ℝ) :=
  List.insertionSort (fun x y => x.2 ≤ y.2) scores

/-- Python's round-half-to-even on a real number. -/
noncomputable def pyRound (x : ℝ) : ℤ :=
  if Int.fract x = 1 / 2 then (if Even ⌊x⌋ then ⌊x⌋ else ⌊x⌋ + 1) else round x

/-- Python's `round(x, n)`: half-to-even at `n` decimal digits. -/
noncomputable def pyRoundTo (x : ℝ) (n : ℕ) : ℝ := (pyRound (x * 10 ^ n) : ℝ) / 10 ^ n

/-- `np.argmax` / Python `max(..., key=...)`: position of the first maximum
(junk value 0 on the empty list, which the callers rule out). -/
noncomputable def np_argmax : List ℝ → ℕ
  | [] => 0
  | x :: xs =>
    (xs.enum.foldl (fun p q => if p.2 < q.2 then (q.1 + 1, q.2) else p) (0, x)).1

/-- One formatted recipe entry (keys of the Python recipe dict). -/
structure RecipeLine where
  code : String
  name : String
  manufacturer : String
  ratio : ℝ
  grams : ℝ

/-- The dict returned by `find_best_mix_optimized`. -/
structure RecipeResult where
  recipe : List RecipeLine
  delta_e : ℝ
  mixed_lab : LabColor
  target_lab : LabColor
  n_colors : ℕ

/-- Step 3a of `find_best_mix_optimized`: drop sub-5% ratios together with
their indices, fall back to the single largest raw ratio when that empties the
vector, renormalize otherwise. -/
noncomputable def filter_normalize (indices : List ℕ) (ratios : List ℝ) :
    List ℕ × List ℝ :=
  let kept := (indices.zip ratios).filter (fun p => decide ((0.05 : ℝ) ≤ p.2))
  if kept.length = 0 then
    ([indices.getD (np_argmax ratios) 0], [1])
  else
    let total := (kept.map Prod.snd).sum
    (kept.map Prod.fst, kept.map (fun p => p.2 / total))

/-- A junk catalog row for out-of-range indexing (never reached on the paths
the wrappers allow). -/
def default_row : PigmentRow := ⟨"", "", "", "", 0, 0, 0⟩

/-- The recipe line that step 3 produces for the pair `p = (index, ratio)` on
every vector the search can produce (percent and grams rounding are exact on
the 5%-grid): `100 r` percent and `10 r` grams of pigment `index`.  Used to
state what `format_step` returns. -/
noncomputable def grid_line (df : List PigmentRow) (p : ℕ × ℝ) : RecipeLine :=
  ⟨(df.getD p.1 default_row).code, (df.getD p.1 default_row).name,
    (df.getD p.1 default_row).manufacturer, 100 * p.2, 10 * p.2⟩

/-- Step 3 of `find_best_mix_optimized`: format the winning ratio vector into
a recipe at the fixed 10 g batch mass, patch the integer percentages to total
exactly 100, and recompute the reported mixed color and distance from the
filtered, renormalized ratios. -/
noncomputable def format_step (df : List PigmentRow) (target_lab : LabColor)
    (all_colors_lab : List LabColor) (best : BestMix) : RecipeResult :=
  let fn := filter_normalize best.indices best.ratios
  let used_indices := fn.1
  let ratios := fn.2
  let total_grams : ℝ := 10
  let recipe0 := (used_indices.zip ratios).filterMap (fun p =>
    let row := df.getD p.1 default_row
    let ratio_percent := pyRoundTo (p.2 * 100) 0
    let grams := p.2 * total_grams
    if ratio_percent < 5 ∨ grams < 0.5 then none
    else some (⟨row.code, row.name, row.manufacturer, ratio_percent,
      pyRoundTo grams 1⟩ : RecipeLine))
  let formatted_recipe :=
    if recipe0.length = 0 then
      let row := df.getD (used_indices.getD (np_argmax ratios) 0) default_row
      [(⟨row.code, row.name, row.manufacturer, 100, 10⟩ : RecipeLine)]
    else
      let total_r := (recipe0.map RecipeLine.ratio).sum
      if total_r ≠ 100 then
        let j := np_argmax (recipe0.map RecipeLine.ratio)
        (recipe0.enum.map (fun q =>
          if q.1 = j then { q.2 with ratio := q.2.ratio + (100 - total_r) } else q.2)).map
          (fun line => { line with grams := pyRoundTo (line.ratio / 100 * total_grams) 1 })
      else recipe0
  let used_colors := used_indices.map (fun i => all_colors_lab.getD i ⟨0, 0, 0⟩)
  let mixed_lab := km_mix_val used_colors ratios none
  let delta_e := calculate_delta_e target_lab mixed_lab
  ⟨formatted_recipe, pyRoundTo delta_e 2, mixed_lab, target_lab, formatted_recipe.length⟩

/-- Tiers 1-3 of the search: `best_result` after the three loop blocks of
`find_best_mix_optimized` (tier 2 and 3 run only when `max_colors` allows). -/
noncomputable def search_best (target_lab : LabColor) (all_colors_lab : List LabColor)
    (selected_indices : List ℕ) (max_colors : ℕ) : Option BestMix :=
  let best1 := tier1 target_lab all_colors_lab selected_indices none
  let best2 := if 2 ≤ max_colors then
    tier2 target_lab all_colors_lab selected_indices best1 else best1
  if 3 ≤ max_colors then tier3 target_lab all_colors_lab selected_indices best2 else best2

/-- utils.py `find_best_mix_optimized`.  The ` thinner_ratio` argument is
accepted and, exactly as in the source, never used.  When the filtered catalog
is empty the source reaches the `selected_indices[0]` fallback and raises
IndexError. -/
noncomputable def find_best_mix_optimized (target_lab : LabColor)
    (available_colors : List PigmentRow) (max_colors : ℕ)
    (exclude_metallic : Bool) (exclude_white_black : Bool) ( thinner_ratio : ℝ) :
    Except PyError RecipeResult :=
  let df := filtered_df available_colors exclude_metallic exclude_white_black
  let all_colors_lab := df.map row_lab
  let scores := sorted_scores (color_scores target_lab all_colors_lab)
  let n_candidates := min 15 all_colors_lab.length
  let selected_indices := (scores.take n_candidates).map Prod.fst
  match search_best target_lab all_colors_lab selected_indices max_colors with
  | some best => .ok (format_step df target_lab all_colors_lab best)
  | none =>
    match selected_indices with
    | [] => .error .indexError
    | idx :: _ =>
      .ok (format_step df target_lab all_colors_lab
        ⟨[idx], [1], (scores.headD (0, 0)).2, all_colors_lab.getD idx ⟨0, 0, 0⟩⟩)

/-- The shape every candidate the tier search can ever record has: as many
indices as ratios, between 1 and min(max_colors, 3) of them, ratios that are
multiples of 5% of at least 5% summing to exactly 1. -/
def grid_ok (max_colors : ℕ) (b : BestMix) : Prop :=
  b.indices.length = b.ratios.length ∧
  b.ratios ≠ [] ∧
  b.ratios.length ≤ max max_colors 1 ∧
  b.ratios.length ≤ 3 ∧
  b.ratios.sum = 1 ∧
  ∀ r ∈ b.ratios, ((1 / 20 : ℝ) ≤ r ∧ ∃ k : ℕ, r = (k : ℝ) / 20)

/-- A predicate on the optional search state, trivially true for `none`. -/
def opt_ok (P : BestMix → Prop) : Option BestMix → Prop
  | none => True
  | some b => P b

/-- The inverse of cosh on the nonnegative reals, used to analyse the
gamma-dependence of the Kubelka-Munk lightness channel. -/
noncomputable def ach (y : ℝ) : ℝ := Real.log (y + Real.sqrt (y ^ 2 - 1))

/-! Shared lemmas -/

theorem update_best_ok {P : BestMix → Prop} {s : Option BestMix} {c : BestMix}
    (hs : opt_ok P s) (hc : P c) : opt_ok P (update_best s c) := by
  cases s with
  | none => exact hc
  | some b =>
    simp only [update_best]
    split_ifs
    · exact hc
    · exact hs

theorem foldl_update_ok {α : Type} {P : BestMix → Prop}
    (f : Option BestMix → α → Option BestMix) :
    ∀ (l : List α), (∀ s a, a ∈ l → opt_ok P s → opt_ok P (f s a)) →
      ∀ s, opt_ok P s → opt_ok P (l.foldl f s)
  | [], _, _, hs => hs
  | a :: l, hf, s, hs =>
    foldl_update_ok f l (fun s b hb => hf s b (List.mem_cons_of_mem a hb)) (f s a)
      (hf s a (List.mem_cons_self a l) hs)

theorem np_clip_eq_self {x lo hi : ℝ} (h1 : lo ≤ x) (h2 : x ≤ hi) :
    np_clip x lo hi = x := by
  simp [np_clip, max_eq_left h1, min_eq_left h2]

theorem tier1_ok (t : LabColor) (labs : List LabColor) (sel : List ℕ) (mc : ℕ)
    {s : Option BestMix} (hs : opt_ok (grid_ok mc) s) :
    opt_ok (grid_ok mc) (tier1 t labs sel s) := by
  refine foldl_update_ok _ sel (fun s idx _ hs => update_best_ok hs ?_) s hs
  refine ⟨rfl, by simp, ?_, by simp, by simp, ?_⟩
  · simpa using le_max_right mc 1
  · intro r hr
    rw [List.mem_singleton] at hr
    subst hr
    exact ⟨by norm_num, 20, by norm_num⟩

theorem tier2_ok (t : LabColor) (labs : List LabColor) (sel : List ℕ) (mc : ℕ)
    (hmc : 2 ≤ mc) {s : Option BestMix} (hs : opt_ok (grid_ok mc) s) :
    opt_ok (grid_ok mc) (tier2 t labs sel s) := by
  unfold tier2
  refine foldl_update_ok _ (combos2 sel) (fun s c _ hs => ?_) s hs
  refine foldl_update_ok _ grid2 (fun s r1 hr1 hs => update_best_ok hs ?_) s hs
  rw [grid2] at hr1
  obtain ⟨i, hi, rfl⟩ := List.mem_map.mp hr1
  rw [List.mem_range'_1] at hi
  have hi1 : (1 : ℝ) ≤ (i : ℝ) := by exact_mod_cast hi.1
  have hi2 : (i : ℝ) ≤ 19 := by
    have : i ≤ 19 := by omega
    exact_mod_cast this
  refine ⟨rfl, by simp, ?_, by simp,
    by rw [List.sum_cons, List.sum_cons, List.sum_nil]; ring, ?_⟩
  · simpa using le_trans hmc (le_max_left mc 1)
  · intro r hr
    simp only [List.mem_cons, List.mem_singleton, List.not_mem_nil, or_false] at hr
    rcases hr with rfl | rfl
    · exact ⟨by linarith, i, rfl⟩
    · refine ⟨by linarith, 20 - i, ?_⟩
      have hle : i ≤ 20 := by omega
      push_cast [Nat.cast_sub hle]
      ring

theorem tier3_ok (t : LabColor) (labs : List LabColor) (sel : List ℕ) (mc : ℕ)
    (hmc : 3 ≤ mc) {s : Option BestMix} (hs : opt_ok (grid_ok mc) s) :
    opt_ok (grid_ok mc) (tier3 t labs sel s) := by
  unfold tier3
  refine foldl_update_ok _ (combos3 sel) (fun s c _ hs => ?_) s hs
  refine foldl_update_ok _ grid3 (fun s r1 hr1 hs => ?_) s hs
  refine foldl_update_ok _ grid3 (fun s r2 hr2 hs => ?_) s hs
  rw [grid3] at hr1 hr2
  obtain ⟨i, hi, rfl⟩ := List.mem_map.mp hr1
  obtain ⟨j, hj, rfl⟩ := List.mem_map.mp hr2
  rw [List.mem_range'_1] at hi hj
  simp only []
  split_ifs with hcond
  · exact hs
  · push_neg at hcond
    have hi1 : (1 : ℝ) ≤ (i : ℝ) := by exact_mod_cast hi.1
    have hj1 : (1 : ℝ) ≤ (j : ℝ) := by exact_mod_cast hj.1
    have hr3lo : (1 : ℝ) / 10 ≤ 1 - (i : ℝ) / 10 - (j : ℝ) / 10 := by
      have := hcond.1
      norm_num at this
      linarith
    have hij : i + j ≤ 9 := by
      have : (i : ℝ) + (j : ℝ) ≤ 9 := by linarith
      exact_mod_cast this
    refine update_best_ok hs ?_
    refine ⟨rfl, by simp, ?_, by simp,
      by rw [List.sum_cons, List.sum_cons, List.sum_cons, List.sum_nil]; ring, ?_⟩
    · simpa using le_trans hmc (le_max_left mc 1)
    · intro r hr
      simp only [List.mem_cons, List.mem_singleton, List.not_mem_nil, or_false] at hr
      rcases hr with rfl | rfl | rfl
      · refine ⟨by linarith, 2 * i, ?_⟩
        push_cast
        ring
      · refine ⟨by linarith, 2 * j, ?_⟩
        push_cast
        ring
      · refine ⟨by linarith, 2 * (10 - (i + j)), ?_⟩
        have hle : i + j ≤ 10 := by omega
        push_cast [Nat.cast_sub hle]
        ring

theorem search_best_ok (t : LabColor) (labs : List LabColor) (sel : List ℕ) (mc : ℕ) :
    opt_ok (grid_ok mc) (search_best t labs sel mc) := by
  have h1 : opt_ok (grid_ok mc) (tier1 t labs sel none) := tier1_ok t labs sel mc trivial
  unfold search_best
  split_ifs with h2 h3 h3'
  · exact tier3_ok t labs sel mc h3 (tier2_ok t labs sel mc h2 h1)
  · exact tier2_ok t labs sel mc h2 h1
  · exact tier3_ok t labs sel mc h3' h1
  · exact h1

/-- Inverting the single-constant Kubelka-Munk relation: for a reflectance
R in (0,1), `1 + k - sqrt(k^2 + 2k)` at `k = (1-R)^2/(2R)` returns R. -/
theorem km_invert (R : ℝ) (h0 : 0 < R) (h1 : R < 1) :
    1 + (1 - R) ^ 2 / (2 * R) - Real.sqrt (((1 - R) ^ 2 / (2 * R)) ^ 2 +
      2 * ((1 - R) ^ 2 / (2 * R))) = R := by
  have hR : (2 : ℝ) * R ≠ 0 := by positivity
  have hsq : ((1 - R) ^ 2 / (2 * R)) ^ 2 + 2 * ((1 - R) ^ 2 / (2 * R))
      = ((1 - R ^ 2) / (2 * R)) ^ 2 := by
    field_simp
    ring
  have hnn : 0 ≤ (1 - R ^ 2) / (2 * R) := by
    apply div_nonneg _ (by positivity)
    nlinarith
  rw [hsq, Real.sqrt_sq hnn]
  field_simp
  ring

theorem np_dot_single (a x : ℝ) : np_dot [a] [x] = a * x := by
  simp [np_dot, np_mul]

theorem np_dot_pair (a b x y : ℝ) : np_dot [a, b] [x, y] = a * x + b * y := by
  simp [np_dot, np_mul]

theorem rpow_11_5_pow_5 (x : ℝ) (hx : 0 ≤ x) :
    (x ^ ((11 : ℝ) / 5)) ^ (5 : ℕ) = x ^ (11 : ℕ) := by
  rw [← Real.rpow_natCast (x ^ ((11 : ℝ) / 5)) 5, ← Real.rpow_mul hx,
    ← Real.rpow_natCast x 11]
  norm_num

theorem le_rpow_11_5 {x a : ℝ} (hx : 0 ≤ x) (ha : 0 ≤ a)
    (h : a ^ (5 : ℕ) ≤ x ^ (11 : ℕ)) : a ≤ x ^ ((11 : ℝ) / 5) := by
  have h5 : a ^ (5 : ℕ) ≤ (x ^ ((11 : ℝ) / 5)) ^ (5 : ℕ) := by
    rw [rpow_11_5_pow_5 x hx]; exact h
  exact le_of_pow_le_pow_left₀ (by norm_num) (Real.rpow_nonneg hx _) h5

theorem rpow_11_5_le {x b : ℝ} (hx : 0 ≤ x) (hb : 0 ≤ b)
    (h : x ^ (11 : ℕ) ≤ b ^ (5 : ℕ)) : x ^ ((11 : ℝ) / 5) ≤ b := by
  have h5 : (x ^ ((11 : ℝ) / 5)) ^ (5 : ℕ) ≤ b ^ (5 : ℕ) := by
    rw [rpow_11_5_pow_5 x hx]; exact h
  exact le_of_pow_le_pow_left₀ (by norm_num) hb h5

/-- Single-pigment reduction of the Kubelka-Munk core when the reflectance
escapes both clamps: the lightness channel returns exactly, the chroma
channels are attenuated by the decay factor. -/
theorem km_mix_core_single (c : LabColor) (γ : ℝ) (hγ : 0 < γ) (hL : 0 ≤ c.L)
    (hlo : epsilon ≤ (c.L / 100) ^ γ) (hhi : (c.L / 100) ^ γ ≤ 1 - epsilon) :
    km_mix_core [c] [1] γ = ⟨c.L,
      c.a * (1 / (1 + (1 + |c.a| / 50) / 10)),
      c.b * (1 / (1 + (1 + |c.b| / 50) / 10))⟩ := by
  have hR0 : 0 < (c.L / 100) ^ γ := lt_of_lt_of_le (by norm_num [epsilon]) hlo
  have hR1 : (c.L / 100) ^ γ < 1 := lt_of_le_of_lt hhi (by norm_num [epsilon])
  have hclip : np_clip ((c.L / 100) ^ γ) epsilon (1 - epsilon) = (c.L / 100) ^ γ :=
    np_clip_eq_self hlo hhi
  have hinv := km_invert ((c.L / 100) ^ γ) hR0 hR1
  simp only [km_mix_core, List.map_cons, List.map_nil, List.sum_cons, List.sum_nil,
    np_dot, np_mul, List.length_cons, List.length_nil, List.zipWith_cons_cons,
    List.zipWith_nil_right, hclip, LabColor.mk.injEq]
  norm_num
  rw [hinv, np_clip_eq_self (le_of_lt hR0) (le_of_lt hR1),
    ← Real.rpow_mul (div_nonneg hL (by norm_num)), mul_inv_cancel₀ (ne_of_gt hγ),
    Real.rpow_one]
  field_simp

/-- Single-pigment reduction of the hybrid model when the reflectance escapes
both clamps: the input color is returned exactly. -/
theorem simple_lab_mix_core_single (c : LabColor) (γ : ℝ) (hγ : 0 < γ) (hL : 0 ≤ c.L)
    (hlo : epsilon ≤ (c.L / 100) ^ γ) (hhi : (c.L / 100) ^ γ ≤ 1 - epsilon) :
    simple_lab_mix_core [c] [1] γ = c := by
  have hR0 : 0 < (c.L / 100) ^ γ := lt_of_lt_of_le (by norm_num [epsilon]) hlo
  have hR1 : (c.L / 100) ^ γ < 1 := lt_of_le_of_lt hhi (by norm_num [epsilon])
  have hclip : np_clip ((c.L / 100) ^ γ) epsilon (1 - epsilon) = (c.L / 100) ^ γ :=
    np_clip_eq_self hlo hhi
  have hinv := km_invert ((c.L / 100) ^ γ) hR0 hR1
  simp only [simple_lab_mix_core, List.map_cons, List.map_nil, List.sum_cons,
    List.sum_nil, np_dot, np_mul, List.length_cons, List.length_nil,
    List.zipWith_cons_cons, List.zipWith_nil_right, hclip, np_min,
    List.filter_cons, List.filter_nil]
  norm_num
  simp only [hinv, np_clip_eq_self (le_of_lt hR0) (le_of_lt hR1),
    ← Real.rpow_mul (div_nonneg hL (by norm_num : (0:ℝ) ≤ 100)),
    mul_inv_cancel₀ (ne_of_gt hγ), Real.rpow_one]
  split_ifs with hchroma
  · have hs : Real.sqrt (c.a ^ 2 + c.b ^ 2) ≠ 0 :=
      ne_of_gt (Real.sqrt_pos.mpr hchroma)
    refine LabColor.ext ?_ ?_ ?_
    · simp only []
      ring
    · simp [div_self hs]
    · simp [div_self hs]
  · refine LabColor.ext ?_ ?_ ?_
    · simp only []
      ring
    · rfl
    · rfl

/-- The reflectance of L = 50 at the default gamma stays inside the clamp:
1/8 <= (1/2)^2.2 <= 1/4. -/
theorem half_rpow_gamma_bounds :
    epsilon ≤ ((1 : ℝ) / 2) ^ OPTIMAL_GAMMA ∧
      ((1 : ℝ) / 2) ^ OPTIMAL_GAMMA ≤ 1 - epsilon := by
  have hg : OPTIMAL_GAMMA = (11 : ℝ) / 5 := by norm_num [OPTIMAL_GAMMA]
  rw [hg]
  constructor
  · refine le_trans (by norm_num [epsilon] : epsilon ≤ (1 : ℝ) / 8) ?_
    exact le_rpow_11_5 (by norm_num) (by norm_num) (by norm_num)
  · refine le_trans ?_ (by norm_num [epsilon] : (1 : ℝ) / 4 ≤ 1 - epsilon)
    exact rpow_11_5_le (by norm_num) (by norm_num) (by norm_num)

/-! Claim C1: identity of mixing. -/

/-- C1, counterexample.  The claim asserts `mix([c], [1.0]) = c` for every Lab
color `c` under the Kubelka-Munk model.  At the chromatic color
c = (50, 50, 0) the model returns a color whose a channel is
50 / 1.2 = 125/3, not 50: the chroma decay factor attenuates a single
pigment's own a/b values, so the identity fails under `kubelka_munk_mix`. -/
theorem C1_km_identity_fails :
    kubelka_munk_mix [⟨50, 50, 0⟩] [1] none ≠ Except.ok (⟨50, 50, 0⟩ : LabColor) := by
  intro h
  have habs : |(50 : ℝ)| = 50 := abs_of_nonneg (by norm_num)
  have hcore : km_mix_core [⟨50, 50, 0⟩] [1] OPTIMAL_GAMMA = ⟨50, 50, 0⟩ := by
    simp only [kubelka_munk_mix, List.sum_cons, List.sum_nil, List.length_cons,
      List.length_nil] at h
    norm_num at h
    exact h
  have ha := congrArg LabColor.a hcore
  simp only [km_mix_core, List.map_cons, List.map_nil, List.sum_cons, List.sum_nil,
    np_dot, np_mul, List.length_cons, List.length_nil, List.zipWith_cons_cons,
    List.zipWith_nil_right, habs] at ha
  norm_num at ha

/-- C1, amended.  Identity of mixing holds as claimed for the hybrid model:
`simple_lab_mix([c], [1.0])` returns `c` exactly for every color whose
reflectance `(L/100)^gamma` escapes the epsilon clamps (0 <= L and gamma > 0).
Under `kubelka_munk_mix` the identity only holds for such colors that are in
addition neutral (a = b = 0); chromatic colors are attenuated in a/b (see the
counterexample). -/
theorem C1_mix_identity_amended (c : LabColor) (gammaOpt : Option ℝ)
    (hL : 0 ≤ c.L) (hγ : 0 < gammaOpt.getD OPTIMAL_GAMMA)
    (hlo : epsilon ≤ (c.L / 100) ^ gammaOpt.getD OPTIMAL_GAMMA)
    (hhi : (c.L / 100) ^ gammaOpt.getD OPTIMAL_GAMMA ≤ 1 - epsilon) :
    simple_lab_mix [c] [1] gammaOpt = Except.ok c ∧
      (c.a = 0 → c.b = 0 → kubelka_munk_mix [c] [1] gammaOpt = Except.ok c) := by
  constructor
  · simp only [simple_lab_mix, List.sum_cons, List.sum_nil, List.length_cons,
      List.length_nil]
    norm_num
    exact simple_lab_mix_core_single c _ hγ hL hlo hhi
  · intro ha hb
    simp only [kubelka_munk_mix, List.sum_cons, List.sum_nil, List.length_cons,
      List.length_nil]
    norm_num
    rw [km_mix_core_single c _ hγ hL hlo hhi]
    exact LabColor.ext (by simp) (by simp [ha]) (by simp [hb])

/-- C1, witness: the amended identity evaluated at the chromatic color
(50, 3, 4) for the hybrid model and at neutral (50, 0, 0) for the
Kubelka-Munk model, both at the default gamma. -/
theorem C1_mix_identity_witness :
    simple_lab_mix [⟨50, 3, 4⟩] [1] none = Except.ok (⟨50, 3, 4⟩ : LabColor) ∧
      kubelka_munk_mix [⟨50, 0, 0⟩] [1] none = Except.ok (⟨50, 0, 0⟩ : LabColor) := by
  have hb := half_rpow_gamma_bounds
  constructor
  · refine (C1_mix_identity_amended ⟨50, 3, 4⟩ none (by norm_num)
      (by norm_num [Option.getD_none, OPTIMAL_GAMMA]) ?_ ?_).1
    · have h2 : ((⟨50, 3, 4⟩ : LabColor).L / 100 : ℝ) = 1 / 2 := by norm_num
      rw [h2]
      exact hb.1
    · have h2 : ((⟨50, 3, 4⟩ : LabColor).L / 100 : ℝ) = 1 / 2 := by norm_num
      rw [h2]
      exact hb.2
  · refine (C1_mix_identity_amended ⟨50, 0, 0⟩ none (by norm_num)
      (by norm_num [Option.getD_none, OPTIMAL_GAMMA]) ?_ ?_).2 rfl rfl
    · have h2 : ((⟨50, 0, 0⟩ : LabColor).L / 100 : ℝ) = 1 / 2 := by norm_num
      rw [h2]
      exact hb.1
    · have h2 : ((⟨50, 0, 0⟩ : LabColor).L / 100 : ℝ) = 1 / 2 := by norm_num
      rw [h2]
      exact hb.2

theorem pyRound_intCast (n : ℤ) : pyRound ((n : ℤ) : ℝ) = n := by
  rw [pyRound, Int.fract_intCast, if_neg (by norm_num), round_intCast]

theorem pyRound_natCast (n : ℕ) : pyRound ((n : ℕ) : ℝ) = (n : ℤ) := by
  rw [← Int.cast_natCast, pyRound_intCast]

theorem pyRoundTo_percent {r : ℝ} (k : ℕ) (hk : r = (k : ℝ) / 20) :
    pyRoundTo (r * 100) 0 = 100 * r := by
  subst hk
  have h : ((k : ℝ) / 20 * 100 * 10 ^ (0 : ℕ)) = ((5 * k : ℕ) : ℝ) := by
    push_cast
    ring
  rw [pyRoundTo, h, pyRound_natCast]
  push_cast
  ring

theorem pyRoundTo_grams {r : ℝ} (k : ℕ) (hk : r = (k : ℝ) / 20) :
    pyRoundTo (r * 10) 1 = 10 * r := by
  subst hk
  have h : ((k : ℝ) / 20 * 10 * 10 ^ (1 : ℕ)) = ((5 * k : ℕ) : ℝ) := by
    push_cast
    ring
  rw [pyRoundTo, h, pyRound_natCast]
  push_cast
  ring

theorem filterMap_eq_map_of_some {α β : Type} (f : α → Option β) (g : α → β) :
    ∀ l : List α, (∀ a ∈ l, f a = some (g a)) → l.filterMap f = l.map g
  | [], _ => rfl
  | a :: l, h => by
    rw [List.filterMap_cons, h a (List.mem_cons_self a l), List.map_cons,
      filterMap_eq_map_of_some f g l (fun b hb => h b (List.mem_cons_of_mem a hb))]

theorem sum_map_mul_const {α : Type} (c : ℝ) (f : α → ℝ) :
    ∀ l : List α, (l.map (fun x => c * f x)).sum = c * (l.map f).sum
  | [] => by simp
  | a :: l => by
    rw [List.map_cons, List.sum_cons, List.map_cons, List.sum_cons,
      sum_map_mul_const c f l]
    ring

/-- On every vector the search can produce, the sub-5% filter keeps
everything and the renormalization divides by a total of one: step 3a is the
identity. -/
theorem filter_normalize_grid {mc : ℕ} {b : BestMix} (hb : grid_ok mc b) :
    filter_normalize b.indices b.ratios = (b.indices, b.ratios) := by
  obtain ⟨hlen, hne, _, _, hsum, hmem⟩ := hb
  have hkeep : (b.indices.zip b.ratios).filter (fun p => decide ((0.05 : ℝ) ≤ p.2))
      = b.indices.zip b.ratios := by
    rw [List.filter_eq_self]
    intro p hp
    have h20 := (hmem p.2 (List.of_mem_zip hp).2).1
    simp only [decide_eq_true_eq]
    norm_num
    linarith
  have hfst : (b.indices.zip b.ratios).map Prod.fst = b.indices :=
    List.map_fst_zip _ _ (le_of_eq hlen)
  have hsnd : (b.indices.zip b.ratios).map Prod.snd = b.ratios :=
    List.map_snd_zip _ _ (le_of_eq hlen.symm)
  have hnil : ¬(b.indices.zip b.ratios).length = 0 := by
    rw [List.length_zip, hlen, min_self]
    exact fun h => hne (List.length_eq_zero.mp h)
  rw [filter_normalize, hkeep, if_neg hnil, hsnd, hsum, hfst]
  show (b.indices, (b.indices.zip b.ratios).map (fun p => p.2 / 1)) = (b.indices, b.ratios)
  have : (b.indices.zip b.ratios).map (fun p => p.2 / 1)
      = (b.indices.zip b.ratios).map Prod.snd :=
    List.map_congr_left (fun p _ => div_one p.2)
  rw [this, hsnd]

/-- The full characterization of step 3 on every vector the search can
produce: each recipe line carries exactly 100 r percent and 10 r grams of its
pigment, the percentage fix-up is a no-op, and the reported mixed color and
distance are recomputed through the Kubelka-Munk model from the (unchanged by
filtering) ratio vector. -/
theorem format_step_spec (df : List PigmentRow) (t : LabColor) (labs : List LabColor)
    {mc : ℕ} {b : BestMix} (hb : grid_ok mc b) :
    format_step df t labs b =
      ⟨(b.indices.zip b.ratios).map (grid_line df),
        pyRoundTo (calculate_delta_e t (km_mix_val
          (b.indices.map (fun i => labs.getD i ⟨0, 0, 0⟩)) b.ratios none)) 2,
        km_mix_val (b.indices.map (fun i => labs.getD i ⟨0, 0, 0⟩)) b.ratios none,
        t,
        ((b.indices.zip b.ratios).map (grid_line df)).length⟩ := by
  have hfn := filter_normalize_grid hb
  obtain ⟨hlen, hne, _, _, hsum, hmem⟩ := hb
  have hsnd : (b.indices.zip b.ratios).map Prod.snd = b.ratios :=
    List.map_snd_zip _ _ (le_of_eq hlen.symm)
  have hrec : (b.indices.zip b.ratios).filterMap (fun p =>
      let row := df.getD p.1 default_row
      let ratio_percent := pyRoundTo (p.2 * 100) 0
      let grams := p.2 * (10 : ℝ)
      if ratio_percent < 5 ∨ grams < 0.5 then none
      else some (⟨row.code, row.name, row.manufacturer, ratio_percent,
        pyRoundTo grams 1⟩ : RecipeLine))
      = (b.indices.zip b.ratios).map (grid_line df) := by
    refine filterMap_eq_map_of_some _ _ _ (fun p hp => ?_)
    obtain ⟨h20, k, hk⟩ := hmem p.2 (List.of_mem_zip hp).2
    have hper := pyRoundTo_percent k hk
    have hgr := pyRoundTo_grams k hk
    simp only [hper, hgr, grid_line]
    rw [if_neg]
    push_neg
    constructor
    · linarith
    · norm_num
      linarith
  have hmapr : ((b.indices.zip b.ratios).map (grid_line df)).map RecipeLine.ratio
      = (b.indices.zip b.ratios).map (fun p => 100 * p.2) := by
    rw [List.map_map]
    rfl
  have hnil2 : ¬((b.indices.zip b.ratios).map (grid_line df)).length = 0 := by
    rw [List.length_map, List.length_zip, hlen, min_self]
    exact fun h => hne (List.length_eq_zero.mp h)
  have htot : (((b.indices.zip b.ratios).map (grid_line df)).map
      RecipeLine.ratio).sum = 100 := by
    rw [hmapr, show (fun p : ℕ × ℝ => (100 : ℝ) * p.2)
      = (fun p : ℕ × ℝ => (100 : ℝ) * Prod.snd p) from rfl,
      sum_map_mul_const, hsnd, hsum, mul_one]
  rw [format_step, hfn]
  simp only [hrec, hnil2, htot]
  norm_num

theorem grid_recipe_ratio_sum (df : List PigmentRow) {mc : ℕ} {b : BestMix}
    (hb : grid_ok mc b) :
    (((b.indices.zip b.ratios).map (grid_line df)).map RecipeLine.ratio).sum = 100 := by
  rw [List.map_map, show RecipeLine.ratio ∘ grid_line df
    = fun p : ℕ × ℝ => (100 : ℝ) * Prod.snd p from rfl, sum_map_mul_const,
    List.map_snd_zip _ _ (le_of_eq hb.1.symm), hb.2.2.2.2.1, mul_one]

theorem grid_recipe_grams_sum (df : List PigmentRow) {mc : ℕ} {b : BestMix}
    (hb : grid_ok mc b) :
    (((b.indices.zip b.ratios).map (grid_line df)).map RecipeLine.grams).sum = 10 := by
  rw [List.map_map, show RecipeLine.grams ∘ grid_line df
    = fun p : ℕ × ℝ => (10 : ℝ) * Prod.snd p from rfl, sum_map_mul_const,
    List.map_snd_zip _ _ (le_of_eq hb.1.symm), hb.2.2.2.2.1, mul_one]

theorem grid_recipe_length (df : List PigmentRow) {mc : ℕ} {b : BestMix}
    (hb : grid_ok mc b) :
    ((b.indices.zip b.ratios).map (grid_line df)).length = b.ratios.length := by
  rw [List.length_map, List.length_zip, hb.1, min_self]

theorem grid_recipe_mem (df : List PigmentRow) {mc : ℕ} {b : BestMix}
    (hb : grid_ok mc b) :
    ∀ line ∈ (b.indices.zip b.ratios).map (grid_line df),
      5 ≤ line.ratio ∧ ∃ n : ℕ, line.ratio = (n : ℝ) := by
  intro line hline
  obtain ⟨p, hp, rfl⟩ := List.mem_map.mp hline
  obtain ⟨h20, k, hk⟩ := hb.2.2.2.2.2 p.2 (List.of_mem_zip hp).2
  constructor
  · show (5 : ℝ) ≤ 100 * p.2
    linarith
  · refine ⟨5 * k, ?_⟩
    show (100 : ℝ) * p.2 = ((5 * k : ℕ) : ℝ)
    rw [hk]
    push_cast
    ring

/-- Every `Except.ok` result of the optimizer is the formatting of some
search vector of the invariant shape (either the tier search's winner or the
single-pigment fallback). -/
theorem find_best_ok_cases (target_lab : LabColor) (available_colors : List PigmentRow)
    (max_colors : ℕ) (em ewb : Bool) (t : ℝ) (res : RecipeResult)
    (h : find_best_mix_optimized target_lab available_colors max_colors em ewb t
      = Except.ok res) :
    ∃ b : BestMix, grid_ok max_colors b ∧
      res = format_step (filtered_df available_colors em ewb) target_lab
        ((filtered_df available_colors em ewb).map row_lab) b := by
  simp only [find_best_mix_optimized] at h
  split at h
  · rename_i b heq
    injection h with h
    refine ⟨b, ?_, h.symm⟩
    have h2 : opt_ok (grid_ok max_colors) (some b) := by
      rw [← heq]
      exact search_best_ok _ _ _ _
    exact h2
  · split at h
    · exact absurd h (by simp)
    · rename_i idx rest heq2
      injection h with h
      refine ⟨_, ?_, h.symm⟩
      refine ⟨rfl, by simp, by simpa using le_max_right max_colors 1, by simp,
        by simp, ?_⟩
      intro r hr
      rw [List.mem_singleton] at hr
      subst hr
      exact ⟨by norm_num, 20, by norm_num⟩

/-! Claim C3: the DE00 metric path. -/

/-- C3, counterexample.  The claim asserts that the DE00 path computes the
full CIEDE2000 formula and in particular differs from DE76 on some pair of
Lab colors.  In the code there is a single distance function,
`calculate_delta_e`, and it is exactly the spec's DE76 Euclidean distance at
every pair of inputs, so no pair of Lab colors can distinguish the two
methods. -/
theorem C3_de00_aliases_de76 : calculate_delta_e = deltaE76_spec := by
  funext c1 c2
  rfl

/-- C3, amended: `calculate_delta_e` (the function whose docstring announces
ΔE00/CIEDE2000) computes the DE76 Euclidean distance
sqrt(dL^2 + da^2 + db^2) for every pair of Lab colors; the DE00 method is not
separately implemented, a simplification the function's own docstring
records. -/
theorem C3_metric_amended (c1 c2 : LabColor) :
    calculate_delta_e c1 c2 =
      Real.sqrt ((c1.L - c2.L) ^ 2 + (c1.a - c2.a) ^ 2 + (c1.b - c2.b) ^ 2) := rfl

/-! Claim C8: input validation of the mix functions. -/

/-- C8, counterexample.  The claim says a call with a negative ratio fails
fast with a validation error.  The call below has a negative ratio and
succeeds: the ratio vector is silently normalized (here to [-1, 2]) and a
color is returned. -/
theorem C8_validation_fails :
    (kubelka_munk_mix [⟨50, 0, 0⟩, ⟨50, 0, 0⟩] [-1, 2] none).toOption.isSome = true := by
  simp only [kubelka_munk_mix, List.sum_cons, List.sum_nil, List.length_cons,
    List.length_nil]
  norm_num [Except.toOption]

/-- C8, amended.  Neither mix function validates its input.  What actually
happens: (i) mismatched lengths (not explained away by numpy length-1
broadcasting) with a nonzero ratio total and a nonempty color list fail with
the library's broadcast ValueError, not a validation error; (ii) any call with
matching lengths and a nonempty color list returns a color, negative ratios
included — they are silently normalized (and a negative vector summing to zero
silently returns the neutral fallback). -/
theorem C8_validation_amended :
    (∀ (colors_lab : List LabColor) (ratios : List ℝ) (gammaOpt : Option ℝ),
        ratios.sum ≠ 0 → colors_lab ≠ [] → colors_lab.length ≠ ratios.length →
        colors_lab.length ≠ 1 → ratios.length ≠ 1 →
        kubelka_munk_mix colors_lab ratios gammaOpt = Except.error PyError.valueError ∧
          simple_lab_mix colors_lab ratios gammaOpt = Except.error PyError.valueError) ∧
    (∀ (colors_lab : List LabColor) (ratios : List ℝ) (gammaOpt : Option ℝ),
        colors_lab.length = ratios.length → colors_lab ≠ [] →
        (kubelka_munk_mix colors_lab ratios gammaOpt).toOption.isSome = true ∧
          (simple_lab_mix colors_lab ratios gammaOpt).toOption.isSome = true) := by
  constructor
  · intro colors ratios g hsum hne hlen h1 h2
    have hl0 : colors.length ≠ 0 := fun h => hne (List.length_eq_zero.mp h)
    have hcond : ¬(colors.length = ratios.length ∨ colors.length = 1 ∨
        ratios.length = 1) := by
      push_neg
      refine ⟨hlen, fun h => h1 h, fun h => h2 h⟩
    constructor
    · simp only [kubelka_munk_mix]
      rw [if_neg hsum, if_neg hl0, if_neg hcond]
    · simp only [simple_lab_mix]
      rw [if_neg hsum, if_neg hl0, if_neg hcond]
  · intro colors ratios g hlen hne
    have hl0 : colors.length ≠ 0 := fun h => hne (List.length_eq_zero.mp h)
    by_cases hsum : ratios.sum = 0
    · constructor
      · simp [kubelka_munk_mix, hsum, Except.toOption]
      · simp [simple_lab_mix, hsum, Except.toOption]
    · have hrne : ratios ≠ [] := fun h => hsum (by simp [h])
      constructor
      · simp [kubelka_munk_mix, hsum, hl0, hlen, hrne, Except.toOption]
      · simp [simple_lab_mix, hsum, hl0, hlen, hrne, Except.toOption]

/-- C8, witness: a 3-color/2-ratio call fails with the broadcast error, and a
2-color call with the negative ratio vector [-1, 3] succeeds, under both mix
functions. -/
theorem C8_validation_witness :
    (kubelka_munk_mix [⟨1, 2, 3⟩, ⟨4, 5, 6⟩, ⟨7, 8, 9⟩] [1 / 2, 1 / 2] none
        = Except.error PyError.valueError ∧
      simple_lab_mix [⟨1, 2, 3⟩, ⟨4, 5, 6⟩, ⟨7, 8, 9⟩] [1 / 2, 1 / 2] none
        = Except.error PyError.valueError) ∧
    ((kubelka_munk_mix [⟨10, -5, 5⟩, ⟨20, 0, 0⟩] [-1, 3] none).toOption.isSome = true ∧
      (simple_lab_mix [⟨10, -5, 5⟩, ⟨20, 0, 0⟩] [-1, 3] none).toOption.isSome = true) :=
  ⟨C8_validation_amended.1 _ _ none (by norm_num) (by simp) (by simp) (by simp) (by simp),
    C8_validation_amended.2 _ _ none (by simp) (by simp)⟩

/-! Claim C7: behavior on an empty filtered catalog. -/

/-- C7, amended.  Whenever the exclusion filters leave an empty pigment pool,
the optimizer fails — it never returns a recipe — but it does so with the
uncaught IndexError from reading `selected_indices[0]` on the empty candidate
list, not with a dedicated empty-catalog condition. -/
theorem C7_empty_pool_amended (target_lab : LabColor) (available_colors : List PigmentRow)
    (max_colors : ℕ) (exclude_metallic exclude_white_black : Bool) (t : ℝ)
    (h : filtered_df available_colors exclude_metallic exclude_white_black = []) :
    find_best_mix_optimized target_lab available_colors max_colors
      exclude_metallic exclude_white_black t = Except.error PyError.indexError := by
  simp [find_best_mix_optimized, h, color_scores, sorted_scores, search_best,
    tier1, tier2, tier3, combos2, combos3]

/-- C7, counterexample.  On an explicitly empty catalog the optimizer raises
the generic IndexError; it does not report the `EmptyCatalog` condition the
claim describes (and it does not return a result). -/
theorem C7_empty_pool_not_reported :
    find_best_mix_optimized ⟨50, 0, 0⟩ [] 3 false false 0
        = Except.error PyError.indexError ∧
      PyError.indexError ≠ PyError.emptyCatalog := by
  constructor
  · simp [find_best_mix_optimized, filtered_df, color_scores, sorted_scores,
      search_best, tier1, tier2, tier3, combos2, combos3]
  · decide

/-- C7, witness: a nonempty catalog whose single entry is metallic, with the
metallic exclusion on, empties the pool and yields the IndexError failure. -/
theorem C7_empty_pool_witness :
    find_best_mix_optimized ⟨50, 0, 0⟩ [⟨"X1", "silver", "M", "metallic", 80, 1, 1⟩]
      4 true false 0 = Except.error PyError.indexError :=
  C7_empty_pool_amended _ _ _ _ _ _ rfl

/-! Claim C6: darkness dominance of the 50/50 white/black mix. -/

theorem rpow_5_11_pow_11 (x : ℝ) (hx : 0 ≤ x) :
    (x ^ ((5 : ℝ) / 11)) ^ (11 : ℕ) = x ^ (5 : ℕ) := by
  rw [← Real.rpow_natCast (x ^ ((5 : ℝ) / 11)) 11, ← Real.rpow_mul hx,
    ← Real.rpow_natCast x 5]
  norm_num

theorem lt_rpow_5_11 {x a : ℝ} (hx : 0 ≤ x) (ha : 0 ≤ a)
    (h : a ^ (11 : ℕ) < x ^ (5 : ℕ)) : a < x ^ ((5 : ℝ) / 11) := by
  have h11 : a ^ (11 : ℕ) < (x ^ ((5 : ℝ) / 11)) ^ (11 : ℕ) := by
    rw [rpow_5_11_pow_11 x hx]; exact h
  exact lt_of_pow_lt_pow_left 11 (Real.rpow_nonneg hx _) h11

theorem rpow_5_11_lt {x b : ℝ} (hx : 0 ≤ x) (hb : 0 ≤ b)
    (h : x ^ (5 : ℕ) < b ^ (11 : ℕ)) : x ^ ((5 : ℝ) / 11) < b := by
  have h11 : (x ^ ((5 : ℝ) / 11)) ^ (11 : ℕ) < b ^ (11 : ℕ) := by
    rw [rpow_5_11_pow_11 x hx]; exact h
  exact lt_of_pow_lt_pow_left 11 hb h11

/-- Decoding a mixed K/S value bounded inside [14.84, 15.24] back through the
Kubelka-Munk inversion and the gamma decode lands the predicted lightness
strictly between black's 15.3 and the linear average 53.9. -/
theorem km_L_decode_bounds {K : ℝ} (h1 : (1484 : ℝ) / 100 ≤ K) (h2 : K ≤ 1524 / 100) :
    153 / 10 < np_clip (1 + K - Real.sqrt (K ^ 2 + 2 * K)) 0 1 ^ OPTIMAL_GAMMA⁻¹ * 100 ∧
      np_clip (1 + K - Real.sqrt (K ^ 2 + 2 * K)) 0 1 ^ OPTIMAL_GAMMA⁻¹ * 100
        < 539 / 10 := by
  have hK0 : (0 : ℝ) ≤ K := by linarith
  have hs2 : Real.sqrt (K ^ 2 + 2 * K) ^ 2 = K ^ 2 + 2 * K :=
    Real.sq_sqrt (by nlinarith)
  have hs0 : 0 ≤ Real.sqrt (K ^ 2 + 2 * K) := Real.sqrt_nonneg _
  set s := Real.sqrt (K ^ 2 + 2 * K) with hsdef
  have hsle : s ≤ K + 1 := by nlinarith [hs2, hs0, sq_nonneg (s - (K + 1))]
  have hsge : K ≤ s := by nlinarith [hs2, hs0, sq_nonneg (s - K)]
  have hprod : (1 + K - s) * (1 + K + s) = 1 := by
    rw [show (1 + K - s) * (1 + K + s) = (1 + K) ^ 2 - s ^ 2 from by ring, hs2]
    ring
  have hden1 : (0 : ℝ) < 1 + K + s := by linarith
  have hR : 1 + K - s = 1 / (1 + K + s) := by
    rw [eq_div_iff (ne_of_gt hden1)]
    exact hprod
  have hub : 1 + K + s ≤ 3248 / 100 := by linarith
  have hlb : (3068 : ℝ) / 100 ≤ 1 + K + s := by linarith
  have hRlo : (100 : ℝ) / 3248 ≤ 1 + K - s := by
    rw [hR, show (100 : ℝ) / 3248 = 1 / (3248 / 100) by norm_num]
    exact one_div_le_one_div_of_le hden1 hub
  have hRhi : 1 + K - s ≤ (100 : ℝ) / 3068 := by
    rw [hR, show (100 : ℝ) / 3068 = 1 / (3068 / 100) by norm_num]
    exact one_div_le_one_div_of_le (by norm_num) hlb
  have hclipR : np_clip (1 + K - s) 0 1 = 1 + K - s :=
    np_clip_eq_self (by linarith) (by linarith)
  rw [hclipR, show OPTIMAL_GAMMA⁻¹ = (5 : ℝ) / 11 by norm_num [OPTIMAL_GAMMA]]
  constructor
  · have ha : (153 : ℝ) / 1000 < ((100 : ℝ) / 3248) ^ ((5 : ℝ) / 11) :=
      lt_rpow_5_11 (by norm_num) (by norm_num) (by norm_num)
    have hmono : ((100 : ℝ) / 3248) ^ ((5 : ℝ) / 11) ≤ (1 + K - s) ^ ((5 : ℝ) / 11) :=
      Real.rpow_le_rpow (by norm_num) hRlo (by norm_num)
    linarith
  · have hb : ((100 : ℝ) / 3068) ^ ((5 : ℝ) / 11) < 539 / 1000 :=
      rpow_5_11_lt (by norm_num) (by norm_num) (by norm_num)
    have hmono : (1 + K - s) ^ ((5 : ℝ) / 11) ≤ ((100 : ℝ) / 3068) ^ ((5 : ℝ) / 11) :=
      Real.rpow_le_rpow (by linarith) hRhi (by norm_num)
    linarith

theorem C6_darkness_dominance :
    15.3 < (km_mix_val [⟨92.5, 0, 0⟩, ⟨15.3, 0, 0⟩] [0.5, 0.5] none).L ∧
      (km_mix_val [⟨92.5, 0, 0⟩, ⟨15.3, 0, 0⟩] [0.5, 0.5] none).L < 53.9 := by
  have hg : OPTIMAL_GAMMA = (11 : ℝ) / 5 := by norm_num [OPTIMAL_GAMMA]
  have hw1 : (84 : ℝ) / 100 ≤ ((37 / 40 : ℝ)) ^ OPTIMAL_GAMMA := by
    rw [hg]
    exact le_rpow_11_5 (by norm_num) (by norm_num) (by norm_num)
  have hw2 : ((37 / 40 : ℝ)) ^ OPTIMAL_GAMMA ≤ 845 / 1000 := by
    rw [hg]
    exact rpow_11_5_le (by norm_num) (by norm_num) (by norm_num)
  have hb1 : (159 : ℝ) / 10000 ≤ ((153 / 1000 : ℝ)) ^ OPTIMAL_GAMMA := by
    rw [hg]
    exact le_rpow_11_5 (by norm_num) (by norm_num) (by norm_num)
  have hb2 : ((153 / 1000 : ℝ)) ^ OPTIMAL_GAMMA ≤ 163 / 10000 := by
    rw [hg]
    exact rpow_11_5_le (by norm_num) (by norm_num) (by norm_num)
  have hclipw : np_clip (((92.5 / 100 : ℝ)) ^ OPTIMAL_GAMMA) epsilon (1 - epsilon)
      = ((92.5 / 100 : ℝ)) ^ OPTIMAL_GAMMA := by
    rw [show ((92.5 : ℝ) / 100) = 37 / 40 by norm_num]
    exact np_clip_eq_self (le_trans (by norm_num [epsilon]) hw1)
      (le_trans hw2 (by norm_num [epsilon]))
  have hclipb : np_clip (((15.3 / 100 : ℝ)) ^ OPTIMAL_GAMMA) epsilon (1 - epsilon)
      = ((15.3 / 100 : ℝ)) ^ OPTIMAL_GAMMA := by
    rw [show ((15.3 : ℝ) / 100) = 153 / 1000 by norm_num]
    exact np_clip_eq_self (le_trans (by norm_num [epsilon]) hb1)
      (le_trans hb2 (by norm_num [epsilon]))
  have hval : km_mix_val [⟨92.5, 0, 0⟩, ⟨15.3, 0, 0⟩] [0.5, 0.5] none
      = km_mix_core [⟨92.5, 0, 0⟩, ⟨15.3, 0, 0⟩] [0.5, 0.5] OPTIMAL_GAMMA := by
    simp only [km_mix_val, kubelka_munk_mix, List.sum_cons, List.sum_nil,
      List.length_cons, List.length_nil]
    norm_num [Except.toOption]
  rw [hval]
  simp only [km_mix_core, List.map_cons, List.map_nil, List.sum_cons, List.sum_nil,
    np_dot, np_mul, List.length_cons, List.length_nil, List.zipWith_cons_cons,
    List.zipWith_nil_right, hclipw, hclipb]
  norm_num
  have hkw0 : (0 : ℝ) ≤ (1 - (37 / 40 : ℝ) ^ OPTIMAL_GAMMA) ^ 2
      / (2 * (37 / 40 : ℝ) ^ OPTIMAL_GAMMA) :=
    div_nonneg (sq_nonneg _) (by linarith)
  have hkw2 : (1 - (37 / 40 : ℝ) ^ OPTIMAL_GAMMA) ^ 2
      / (2 * (37 / 40 : ℝ) ^ OPTIMAL_GAMMA) ≤ 153 / 10000 := by
    have ha : (1 - (37 / 40 : ℝ) ^ OPTIMAL_GAMMA) ^ 2 ≤ (16 / 100) ^ 2 := by
      nlinarith [hw1, hw2]
    have hd : (168 : ℝ) / 100 ≤ 2 * (37 / 40 : ℝ) ^ OPTIMAL_GAMMA := by linarith
    calc (1 - (37 / 40 : ℝ) ^ OPTIMAL_GAMMA) ^ 2 / (2 * (37 / 40 : ℝ) ^ OPTIMAL_GAMMA)
        ≤ ((16 : ℝ) / 100) ^ 2 / (168 / 100) :=
          div_le_div (by norm_num) ha (by norm_num) hd
      _ ≤ 153 / 10000 := by norm_num
  have hkb1 : (2968 : ℝ) / 100 ≤ (1 - (153 / 1000 : ℝ) ^ OPTIMAL_GAMMA) ^ 2
      / (2 * (153 / 1000 : ℝ) ^ OPTIMAL_GAMMA) := by
    have ha : ((9837 : ℝ) / 10000) ^ 2 ≤ (1 - (153 / 1000 : ℝ) ^ OPTIMAL_GAMMA) ^ 2 := by
      nlinarith [hb1, hb2]
    have hd : 2 * (153 / 1000 : ℝ) ^ OPTIMAL_GAMMA ≤ 326 / 10000 := by linarith
    calc (2968 : ℝ) / 100 ≤ ((9837 : ℝ) / 10000) ^ 2 / (326 / 10000) := by norm_num
      _ ≤ (1 - (153 / 1000 : ℝ) ^ OPTIMAL_GAMMA) ^ 2
          / (2 * (153 / 1000 : ℝ) ^ OPTIMAL_GAMMA) :=
          div_le_div (sq_nonneg _) ha (by linarith) hd
  have hkb2 : (1 - (153 / 1000 : ℝ) ^ OPTIMAL_GAMMA) ^ 2
      / (2 * (153 / 1000 : ℝ) ^ OPTIMAL_GAMMA) ≤ 3046 / 100 := by
    have ha : (1 - (153 / 1000 : ℝ) ^ OPTIMAL_GAMMA) ^ 2 ≤ ((9841 : ℝ) / 10000) ^ 2 := by
      nlinarith [hb1, hb2]
    have hd : (318 : ℝ) / 10000 ≤ 2 * (153 / 1000 : ℝ) ^ OPTIMAL_GAMMA := by linarith
    calc (1 - (153 / 1000 : ℝ) ^ OPTIMAL_GAMMA) ^ 2
        / (2 * (153 / 1000 : ℝ) ^ OPTIMAL_GAMMA)
        ≤ ((9841 : ℝ) / 10000) ^ 2 / (318 / 10000) :=
          div_le_div (by norm_num) ha (by norm_num) hd
      _ ≤ 3046 / 100 := by norm_num
  exact km_L_decode_bounds (by linarith) (by linarith)

/-! Claims C2, C4, C5: the optimizer's result invariants. -/

/-- C2.  For every successful optimizer call (with the spec's `maxPigments`
at least 1): the integer percentages of the returned recipe sum to exactly
100, every line's percentage is at least 5 (and is a whole number), the
number of recipe lines is at most `max_colors`, and the grams across the
lines total the fixed 10 g batch within a 0.05 g tolerance (in fact exactly
10 g). -/
theorem C2_recipe_invariants (target_lab : LabColor) (available_colors : List PigmentRow)
    (max_colors : ℕ) (em ewb : Bool) (t : ℝ) (res : RecipeResult)
    (hmc : 1 ≤ max_colors)
    (h : find_best_mix_optimized target_lab available_colors max_colors em ewb t
      = Except.ok res) :
    (res.recipe.map RecipeLine.ratio).sum = 100 ∧
      (∀ line ∈ res.recipe, 5 ≤ line.ratio ∧ ∃ n : ℕ, line.ratio = (n : ℝ)) ∧
      res.recipe.length ≤ max_colors ∧
      |(res.recipe.map RecipeLine.grams).sum - 10| ≤ 1 / 20 := by
  obtain ⟨b, hb, rfl⟩ := find_best_ok_cases _ _ _ _ _ _ _ h
  rw [format_step_spec _ _ _ hb]
  refine ⟨grid_recipe_ratio_sum _ hb, grid_recipe_mem _ hb, ?_, ?_⟩
  · show ((b.indices.zip b.ratios).map (grid_line _)).length ≤ max_colors
    rw [grid_recipe_length _ hb]
    have h3 := hb.2.2.1
    rwa [max_eq_left hmc] at h3
  · show |(((b.indices.zip b.ratios).map (grid_line _)).map RecipeLine.grams).sum - 10|
      ≤ 1 / 20
    rw [grid_recipe_grams_sum _ hb]
    norm_num

/-- C5.  Regardless of `max_colors` (in particular when it exceeds 3), the
tier search only ever evaluates 1-, 2- and 3-pigment combinations, so every
successful optimizer call returns a recipe with at most 3 lines. -/
theorem C5_tier_ceiling (target_lab : LabColor) (available_colors : List PigmentRow)
    (max_colors : ℕ) (em ewb : Bool) (t : ℝ) (res : RecipeResult)
    (h : find_best_mix_optimized target_lab available_colors max_colors em ewb t
      = Except.ok res) :
    res.recipe.length ≤ 3 := by
  obtain ⟨b, hb, rfl⟩ := find_best_ok_cases _ _ _ _ _ _ _ h
  rw [format_step_spec _ _ _ hb]
  show ((b.indices.zip b.ratios).map (grid_line _)).length ≤ 3
  rw [grid_recipe_length _ hb]
  exact hb.2.2.2.1

/-- C4.  For every successful optimizer call there is an (index, ratio)
vector — its own fixed point under the sub-5% filter and renormalization of
step 3a — such that the returned recipe is built line-by-line from exactly
that vector, the reported mixed color is recomputed by `kubelka_munk_mix`
from that same filtered, renormalized vector (not taken from the search's
raw intermediate), and the reported distance is recomputed from that mixed
color. -/
theorem C4_recompute_from_filtered (target_lab : LabColor)
    (available_colors : List PigmentRow) (max_colors : ℕ) (em ewb : Bool) (t : ℝ)
    (res : RecipeResult)
    (h : find_best_mix_optimized target_lab available_colors max_colors em ewb t
      = Except.ok res) :
    ∃ (used : List ℕ) (rs : List ℝ),
      filter_normalize used rs = (used, rs) ∧
      res.recipe = (used.zip rs).map (grid_line (filtered_df available_colors em ewb)) ∧
      res.mixed_lab = km_mix_val ((filter_normalize used rs).1.map (fun i =>
        ((filtered_df available_colors em ewb).map row_lab).getD i ⟨0, 0, 0⟩))
        (filter_normalize used rs).2 none ∧
      res.delta_e = pyRoundTo (calculate_delta_e target_lab res.mixed_lab) 2 := by
  obtain ⟨b, hb, rfl⟩ := find_best_ok_cases _ _ _ _ _ _ _ h
  have hfn := filter_normalize_grid hb
  rw [format_step_spec _ _ _ hb]
  exact ⟨b.indices, b.ratios, hfn, rfl, by rw [hfn], rfl⟩

theorem search_best_single (t : LabColor) (labs : List LabColor) (mc : ℕ) :
    search_best t labs [0] mc = some ⟨[0], [1],
      calculate_delta_e t (labs.getD 0 ⟨0, 0, 0⟩), labs.getD 0 ⟨0, 0, 0⟩⟩ := by
  unfold search_best tier1 tier2 tier3
  simp [combos2, combos3, update_best]

/-- Evaluation of the optimizer on a one-pigment catalog: the search reduces
to the single tier-1 candidate at full ratio, then formatted by step 3. -/
theorem eval_single (mc : ℕ) :
    find_best_mix_optimized ⟨50, 0, 0⟩ [⟨"G", "gray", "M", "basic", 50, 0, 0⟩] mc
        false false 0
      = Except.ok (format_step [⟨"G", "gray", "M", "basic", 50, 0, 0⟩] ⟨50, 0, 0⟩
          [⟨50, 0, 0⟩] ⟨[0], [1], calculate_delta_e ⟨50, 0, 0⟩ ⟨50, 0, 0⟩,
            ⟨50, 0, 0⟩⟩) := by
  rw [find_best_mix_optimized]
  simp only [filtered_df, row_lab, color_scores, sorted_scores]
  norm_num [List.enum, List.enumFrom, List.insertionSort, List.orderedInsert,
    search_best_single]
  rfl

/-- C2, witness: the invariants evaluated on a successful run over a
one-pigment catalog with `max_colors = 1`. -/
theorem C2_recipe_invariants_witness :
    ((format_step [⟨"G", "gray", "M", "basic", 50, 0, 0⟩] ⟨50, 0, 0⟩ [⟨50, 0, 0⟩]
        ⟨[0], [1], calculate_delta_e ⟨50, 0, 0⟩ ⟨50, 0, 0⟩,
          ⟨50, 0, 0⟩⟩).recipe.map RecipeLine.ratio).sum = 100 ∧
      (∀ line ∈ (format_step [⟨"G", "gray", "M", "basic", 50, 0, 0⟩] ⟨50, 0, 0⟩
          [⟨50, 0, 0⟩] ⟨[0], [1], calculate_delta_e ⟨50, 0, 0⟩ ⟨50, 0, 0⟩,
            ⟨50, 0, 0⟩⟩).recipe,
        5 ≤ line.ratio ∧ ∃ n : ℕ, line.ratio = (n : ℝ)) ∧
      (format_step [⟨"G", "gray", "M", "basic", 50, 0, 0⟩] ⟨50, 0, 0⟩ [⟨50, 0, 0⟩]
        ⟨[0], [1], calculate_delta_e ⟨50, 0, 0⟩ ⟨50, 0, 0⟩,
          ⟨50, 0, 0⟩⟩).recipe.length ≤ 1 ∧
      |((format_step [⟨"G", "gray", "M", "basic", 50, 0, 0⟩] ⟨50, 0, 0⟩ [⟨50, 0, 0⟩]
        ⟨[0], [1], calculate_delta_e ⟨50, 0, 0⟩ ⟨50, 0, 0⟩,
          ⟨50, 0, 0⟩⟩).recipe.map RecipeLine.grams).sum - 10| ≤ 1 / 20 :=
  C2_recipe_invariants ⟨50, 0, 0⟩ [⟨"G", "gray", "M", "basic", 50, 0, 0⟩] 1 false false
    0 _ (by norm_num) (eval_single 1)

/-- C5, witness: a successful run with `max_colors = 5` still returns at most
3 recipe lines. -/
theorem C5_tier_ceiling_witness :
    (format_step [⟨"G", "gray", "M", "basic", 50, 0, 0⟩] ⟨50, 0, 0⟩ [⟨50, 0, 0⟩]
      ⟨[0], [1], calculate_delta_e ⟨50, 0, 0⟩ ⟨50, 0, 0⟩,
        ⟨50, 0, 0⟩⟩).recipe.length ≤ 3 :=
  C5_tier_ceiling ⟨50, 0, 0⟩ [⟨"G", "gray", "M", "basic", 50, 0, 0⟩] 5 false false 0 _
    (eval_single 5)

/-- C4, witness: the recompute-from-filtered-ratios property evaluated on the
same concrete successful run. -/
theorem C4_recompute_from_filtered_witness :
    ∃ (used : List ℕ) (rs : List ℝ),
      filter_normalize used rs = (used, rs) ∧
      (format_step [⟨"G", "gray", "M", "basic", 50, 0, 0⟩] ⟨50, 0, 0⟩ [⟨50, 0, 0⟩]
          ⟨[0], [1], calculate_delta_e ⟨50, 0, 0⟩ ⟨50, 0, 0⟩, ⟨50, 0, 0⟩⟩).recipe
        = (used.zip rs).map (grid_line
            (filtered_df [⟨"G", "gray", "M", "basic", 50, 0, 0⟩] false false)) ∧
      (format_step [⟨"G", "gray", "M", "basic", 50, 0, 0⟩] ⟨50, 0, 0⟩ [⟨50, 0, 0⟩]
          ⟨[0], [1], calculate_delta_e ⟨50, 0, 0⟩ ⟨50, 0, 0⟩, ⟨50, 0, 0⟩⟩).mixed_lab
        = km_mix_val ((filter_normalize used rs).1.map (fun i =>
            ((filtered_df [⟨"G", "gray", "M", "basic", 50, 0, 0⟩] false
              false).map row_lab).getD i ⟨0, 0, 0⟩))
            (filter_normalize used rs).2 none ∧
      (format_step [⟨"G", "gray", "M", "basic", 50, 0, 0⟩] ⟨50, 0, 0⟩ [⟨50, 0, 0⟩]
          ⟨[0], [1], calculate_delta_e ⟨50, 0, 0⟩ ⟨50, 0, 0⟩, ⟨50, 0, 0⟩⟩).delta_e
        = pyRoundTo (calculate_delta_e ⟨50, 0, 0⟩
            (format_step [⟨"G", "gray", "M", "basic", 50, 0, 0⟩] ⟨50, 0, 0⟩
              [⟨50, 0, 0⟩] ⟨[0], [1], calculate_delta_e ⟨50, 0, 0⟩ ⟨50, 0, 0⟩,
                ⟨50, 0, 0⟩⟩).mixed_lab) 2 :=
  C4_recompute_from_filtered ⟨50, 0, 0⟩ [⟨"G", "gray", "M", "basic", 50, 0, 0⟩] 1
    false false 0 _ (eval_single 1)

/-! Claim C9: strict monotonicity of the mixed lightness in gamma.

The decoded lightness of the fixed 50/50 white/black mix at gamma `g` equals
`100 * exp (-(sigma g / g))` where `sigma g = ach ((cosh (g*a) + cosh (g*b))/2)`
and `a`, `b` are the negative log reflectances of white and black.  Strict
monotonicity of `sigma g / g` reduces to strict convexity of
`y ↦ cosh (r * ach y)`, hence to strict monotonicity of
`x ↦ sinh (r*x) / sinh x` and finally of `y ↦ sinh y / y`. -/

theorem self_mul_cosh_sub_sinh_pos {y : ℝ} (hy : 0 < y) :
    0 < Real.cosh y * y - Real.sinh y := by
  have hmono : StrictMonoOn (fun y : ℝ => Real.cosh y * y - Real.sinh y)
      (Set.Ici 0) := by
    refine strictMonoOn_of_deriv_pos (convex_Ici 0)
      (((Real.continuous_cosh.mul continuous_id).sub Real.continuous_sinh).continuousOn) ?_
    intro x hx
    rw [interior_Ici] at hx
    have hd : HasDerivAt (fun y : ℝ => Real.cosh y * y - Real.sinh y)
        (Real.sinh x * x + Real.cosh x * 1 - Real.cosh x) x :=
      ((Real.hasDerivAt_cosh x).mul (hasDerivAt_id x)).sub (Real.hasDerivAt_sinh x)
    rw [hd.deriv]
    have hx' : 0 < x := Set.mem_Ioi.mp hx
    have hs : 0 < Real.sinh x := Real.sinh_pos_iff.mpr hx'
    nlinarith
  have h0 : (0 : ℝ) ∈ Set.Ici (0 : ℝ) := Set.left_mem_Ici
  have hyi : y ∈ Set.Ici (0 : ℝ) := Set.mem_Ici.mpr hy.le
  have := hmono h0 hyi hy
  simpa using this

theorem sinh_div_self_strictMono :
    StrictMonoOn (fun y : ℝ => Real.sinh y / y) (Set.Ioi 0) := by
  have hcont : ContinuousOn (fun y : ℝ => Real.sinh y / y) (Set.Ioi 0) :=
    ContinuousOn.div Real.continuous_sinh.continuousOn continuousOn_id
      (fun y hy => ne_of_gt hy)
  refine strictMonoOn_of_deriv_pos (convex_Ioi 0) hcont ?_
  intro y hy
  rw [interior_Ioi] at hy
  have hd : HasDerivAt (fun y : ℝ => Real.sinh y / y)
      ((Real.cosh y * y - Real.sinh y * 1) / y ^ 2) y :=
    (Real.hasDerivAt_sinh y).div (hasDerivAt_id y) (ne_of_gt hy)
  rw [hd.deriv]
  have hy' : 0 < y := Set.mem_Ioi.mp hy
  have hnum := self_mul_cosh_sub_sinh_pos hy'
  apply div_pos (by nlinarith) (by positivity)

theorem sinh_ratio_num_pos {r x : ℝ} (hr : 1 < r) (hx : 0 < x) :
    0 < Real.cosh (r * x) * r * Real.sinh x - Real.sinh (r * x) * Real.cosh x := by
  have hkey1 : Real.cosh (r * x) * Real.sinh x
      = (Real.sinh ((r + 1) * x) - Real.sinh ((r - 1) * x)) / 2 := by
    rw [show (r + 1) * x = r * x + x from by ring, show (r - 1) * x = r * x - x from by ring,
      Real.sinh_add, Real.sinh_sub]
    ring
  have hkey2 : Real.sinh (r * x) * Real.cosh x
      = (Real.sinh ((r + 1) * x) + Real.sinh ((r - 1) * x)) / 2 := by
    rw [show (r + 1) * x = r * x + x from by ring, show (r - 1) * x = r * x - x from by ring,
      Real.sinh_add, Real.sinh_sub]
    ring
  have hp1 : 0 < (r - 1) * x := by nlinarith
  have hp2 : 0 < (r + 1) * x := by nlinarith
  have hlt : (r - 1) * x < (r + 1) * x := by nlinarith
  have hcomp := sinh_div_self_strictMono (Set.mem_Ioi.mpr hp1) (Set.mem_Ioi.mpr hp2) hlt
  simp only [] at hcomp
  rw [div_lt_div_iff hp1 hp2] at hcomp
  nlinarith [hcomp, hkey1, hkey2]

theorem sinh_ratio_strictMono {r : ℝ} (hr : 1 < r) :
    StrictMonoOn (fun x : ℝ => Real.sinh (r * x) / Real.sinh x) (Set.Ioi 0) := by
  have hcont : ContinuousOn (fun x : ℝ => Real.sinh (r * x) / Real.sinh x)
      (Set.Ioi 0) := by
    refine ContinuousOn.div ?_ Real.continuous_sinh.continuousOn
      (fun x hx => ne_of_gt (Real.sinh_pos_iff.mpr hx))
    exact (Real.continuous_sinh.comp (continuous_const.mul continuous_id)).continuousOn
  refine strictMonoOn_of_deriv_pos (convex_Ioi 0) hcont ?_
  intro x hx
  rw [interior_Ioi] at hx
  have hsx : 0 < Real.sinh x := Real.sinh_pos_iff.mpr hx
  have hd1 : HasDerivAt (fun x : ℝ => Real.sinh (r * x)) (Real.cosh (r * x) * (r * 1)) x :=
    HasDerivAt.sinh ((hasDerivAt_id x).const_mul r)
  have hd : HasDerivAt (fun x : ℝ => Real.sinh (r * x) / Real.sinh x)
      ((Real.cosh (r * x) * (r * 1) * Real.sinh x - Real.sinh (r * x) * Real.cosh x)
        / Real.sinh x ^ 2) x :=
    hd1.div (Real.hasDerivAt_sinh x) (ne_of_gt hsx)
  rw [hd.deriv]
  refine div_pos ?_ (by positivity)
  have := sinh_ratio_num_pos hr hx
  nlinarith

theorem one_le_self_add_sqrt {y : ℝ} (hy : 1 ≤ y) :
    1 ≤ y + Real.sqrt (y ^ 2 - 1) :=
  le_add_of_le_of_nonneg hy (Real.sqrt_nonneg _)

theorem ach_nonneg {y : ℝ} (hy : 1 ≤ y) : 0 ≤ ach y :=
  Real.log_nonneg (one_le_self_add_sqrt hy)

theorem cosh_ach {y : ℝ} (hy : 1 ≤ y) : Real.cosh (ach y) = y := by
  have hpos : (0 : ℝ) < y + Real.sqrt (y ^ 2 - 1) :=
    lt_of_lt_of_le one_pos (one_le_self_add_sqrt hy)
  have hsq : Real.sqrt (y ^ 2 - 1) ^ 2 = y ^ 2 - 1 :=
    Real.sq_sqrt (by nlinarith)
  have hprod : (y + Real.sqrt (y ^ 2 - 1)) * (y - Real.sqrt (y ^ 2 - 1)) = 1 := by
    nlinarith [hsq]
  have hinv : (y + Real.sqrt (y ^ 2 - 1))⁻¹ = y - Real.sqrt (y ^ 2 - 1) :=
    inv_eq_of_mul_eq_one_right hprod
  simp only [ach]
  rw [Real.cosh_log hpos, hinv]
  ring

theorem sinh_ach {y : ℝ} (hy : 1 ≤ y) :
    Real.sinh (ach y) = Real.sqrt (y ^ 2 - 1) := by
  have hpos : (0 : ℝ) < y + Real.sqrt (y ^ 2 - 1) :=
    lt_of_lt_of_le one_pos (one_le_self_add_sqrt hy)
  have hsq : Real.sqrt (y ^ 2 - 1) ^ 2 = y ^ 2 - 1 :=
    Real.sq_sqrt (by nlinarith)
  have hprod : (y + Real.sqrt (y ^ 2 - 1)) * (y - Real.sqrt (y ^ 2 - 1)) = 1 := by
    nlinarith [hsq]
  have hinv : (y + Real.sqrt (y ^ 2 - 1))⁻¹ = y - Real.sqrt (y ^ 2 - 1) :=
    inv_eq_of_mul_eq_one_right hprod
  simp only [ach]
  rw [Real.sinh_log hpos, hinv]
  ring

theorem ach_cosh {α : ℝ} (hα : 0 ≤ α) : ach (Real.cosh α) = α := by
  have hs : 0 ≤ Real.sinh α := Real.sinh_nonneg_iff.mpr hα
  have h1 : Real.cosh α ^ 2 - 1 = Real.sinh α ^ 2 := (Real.sinh_sq α).symm
  simp only [ach]
  rw [h1, Real.sqrt_sq hs, Real.cosh_add_sinh, Real.log_exp]

theorem ach_pos {y : ℝ} (hy : 1 < y) : 0 < ach y :=
  Real.log_pos (lt_of_lt_of_le hy (le_add_of_nonneg_right (Real.sqrt_nonneg _)))

theorem ach_lt_ach {y1 y2 : ℝ} (h1 : 1 ≤ y1) (h12 : y1 < y2) :
    ach y1 < ach y2 := by
  have hs : Real.sqrt (y1 ^ 2 - 1) ≤ Real.sqrt (y2 ^ 2 - 1) :=
    Real.sqrt_le_sqrt (by nlinarith)
  exact Real.log_lt_log (lt_of_lt_of_le one_pos (one_le_self_add_sqrt h1))
    (by linarith)

theorem hasDerivAt_ach {y : ℝ} (hy : 1 < y) :
    HasDerivAt ach ((Real.sqrt (y ^ 2 - 1))⁻¹) y := by
  have hy2 : 0 < y ^ 2 - 1 := by nlinarith
  have hs0 : 0 < Real.sqrt (y ^ 2 - 1) := Real.sqrt_pos.mpr hy2
  have hd1 : HasDerivAt (fun y : ℝ => y ^ 2 - 1) (2 * y) y := by
    simpa using (hasDerivAt_pow 2 y).sub_const 1
  have hd2 : HasDerivAt (fun y : ℝ => Real.sqrt (y ^ 2 - 1))
      (2 * y / (2 * Real.sqrt (y ^ 2 - 1))) y := hd1.sqrt (ne_of_gt hy2)
  have hd3 : HasDerivAt (fun y : ℝ => y + Real.sqrt (y ^ 2 - 1))
      (1 + 2 * y / (2 * Real.sqrt (y ^ 2 - 1))) y := (hasDerivAt_id y).add hd2
  have hpos : 0 < y + Real.sqrt (y ^ 2 - 1) :=
    add_pos_of_pos_of_nonneg (lt_trans one_pos hy) (Real.sqrt_nonneg _)
  have hd4 : HasDerivAt (fun y : ℝ => Real.log (y + Real.sqrt (y ^ 2 - 1)))
      ((1 + 2 * y / (2 * Real.sqrt (y ^ 2 - 1))) / (y + Real.sqrt (y ^ 2 - 1))) y :=
    hd3.log (ne_of_gt hpos)
  have heq : (1 + 2 * y / (2 * Real.sqrt (y ^ 2 - 1))) / (y + Real.sqrt (y ^ 2 - 1))
      = (Real.sqrt (y ^ 2 - 1))⁻¹ := by
    field_simp
    ring
  rw [heq] at hd4
  exact hd4

theorem ach_continuousOn : ContinuousOn ach (Set.Ici 1) := by
  show ContinuousOn (fun y : ℝ => Real.log (y + Real.sqrt (y ^ 2 - 1))) (Set.Ici 1)
  refine ContinuousOn.log ?_ ?_
  · exact continuousOn_id.add
      (Real.continuous_sqrt.comp ((continuous_pow 2).sub continuous_const)).continuousOn
  · intro y hy
    have h1 : (1 : ℝ) ≤ y := hy
    have h2 := Real.sqrt_nonneg (y ^ 2 - 1)
    exact ne_of_gt (by linarith)

theorem G_hasDerivAt {r y : ℝ} (hy : 1 < y) :
    HasDerivAt (fun y : ℝ => Real.cosh (r * ach y))
      (r * (Real.sinh (r * ach y) / Real.sinh (ach y))) y := by
  have hy2 : 0 < y ^ 2 - 1 := by nlinarith
  have hs0 : 0 < Real.sqrt (y ^ 2 - 1) := Real.sqrt_pos.mpr hy2
  have hB : HasDerivAt (fun y : ℝ => r * ach y)
      (r * (Real.sqrt (y ^ 2 - 1))⁻¹) y := (hasDerivAt_ach hy).const_mul r
  have hC : HasDerivAt (fun y : ℝ => Real.cosh (r * ach y))
      (Real.sinh (r * ach y) * (r * (Real.sqrt (y ^ 2 - 1))⁻¹)) y := hB.cosh
  have hs : Real.sinh (ach y) = Real.sqrt (y ^ 2 - 1) := sinh_ach hy.le
  have heq : Real.sinh (r * ach y) * (r * (Real.sqrt (y ^ 2 - 1))⁻¹)
      = r * (Real.sinh (r * ach y) / Real.sinh (ach y)) := by
    rw [hs]
    field_simp
    ring
  rw [heq] at hC
  exact hC

theorem G_strictConvexOn {r : ℝ} (hr : 1 < r) :
    StrictConvexOn ℝ (Set.Ici 1) (fun y : ℝ => Real.cosh (r * ach y)) := by
  refine StrictMonoOn.strictConvexOn_of_deriv (convex_Ici 1) ?_ ?_
  · exact Real.continuous_cosh.comp_continuousOn
      (continuousOn_const.mul ach_continuousOn)
  · rw [interior_Ici]
    intro y1 hy1 y2 hy2 h12
    have h1 : 1 < y1 := hy1
    have h2 : 1 < y2 := hy2
    rw [(G_hasDerivAt (r := r) h1).deriv, (G_hasDerivAt (r := r) h2).deriv]
    have ha1 : 0 < ach y1 := ach_pos h1
    have ha12 : ach y1 < ach y2 := ach_lt_ach h1.le h12
    have hmono := sinh_ratio_strictMono hr (Set.mem_Ioi.mpr ha1)
      (Set.mem_Ioi.mpr (lt_trans ha1 ha12)) ha12
    simp only [] at hmono
    exact mul_lt_mul_of_pos_left hmono (lt_trans one_pos hr)

theorem cosh_ach_midpoint {r α β : ℝ} (hr : 1 < r) (hα : 0 ≤ α) (hβ : 0 ≤ β)
    (hne : α ≠ β) :
    Real.cosh (r * ach ((Real.cosh α + Real.cosh β) / 2))
      < (Real.cosh (r * α) + Real.cosh (r * β)) / 2 := by
  have hG := G_strictConvexOn hr
  have hxa : Real.cosh α ∈ Set.Ici (1 : ℝ) := Set.mem_Ici.mpr (Real.one_le_cosh α)
  have hxb : Real.cosh β ∈ Set.Ici (1 : ℝ) := Set.mem_Ici.mpr (Real.one_le_cosh β)
  have hne' : Real.cosh α ≠ Real.cosh β := by
    intro h
    rcases lt_trichotomy α β with hlt | heq | hgt
    · have : |α| < |β| := by rw [abs_of_nonneg hα, abs_of_nonneg hβ]; exact hlt
      exact absurd (Real.cosh_lt_cosh.mpr this) (by rw [h]; exact lt_irrefl _)
    · exact hne heq
    · have : |β| < |α| := by rw [abs_of_nonneg hα, abs_of_nonneg hβ]; exact hgt
      exact absurd (Real.cosh_lt_cosh.mpr this) (by rw [h]; exact lt_irrefl _)
  have hmem := hG.2 hxa hxb hne' (by norm_num : (0 : ℝ) < 1 / 2)
    (by norm_num : (0 : ℝ) < 1 / 2) (by norm_num : (1 : ℝ) / 2 + 1 / 2 = 1)
  simp only [smul_eq_mul] at hmem
  rw [ach_cosh hα, ach_cosh hβ,
    show 1 / 2 * Real.cosh α + 1 / 2 * Real.cosh β
      = (Real.cosh α + Real.cosh β) / 2 from by ring] at hmem
  linarith [hmem]

theorem sigma_div_strictMono {a b g1 g2 : ℝ} (ha : 0 < a) (hb : 0 < b)
    (hab : a ≠ b) (hg1 : 0 < g1) (h12 : g1 < g2) :
    ach ((Real.cosh (g1 * a) + Real.cosh (g1 * b)) / 2) / g1
      < ach ((Real.cosh (g2 * a) + Real.cosh (g2 * b)) / 2) / g2 := by
  have hg2 : 0 < g2 := lt_trans hg1 h12
  have hr : 1 < g2 / g1 := (one_lt_div hg1).mpr h12
  have hα : 0 ≤ g1 * a := by positivity
  have hβ : 0 ≤ g1 * b := by positivity
  have hne : g1 * a ≠ g1 * b := fun h =>
    hab (mul_left_cancel₀ (ne_of_gt hg1) h)
  have hmid := cosh_ach_midpoint hr hα hβ hne
  have hca : g2 / g1 * (g1 * a) = g2 * a := by
    rw [← mul_assoc, div_mul_cancel₀ g2 (ne_of_gt hg1)]
  have hcb : g2 / g1 * (g1 * b) = g2 * b := by
    rw [← mul_assoc, div_mul_cancel₀ g2 (ne_of_gt hg1)]
  rw [hca, hcb] at hmid
  have h2le : 1 ≤ (Real.cosh (g2 * a) + Real.cosh (g2 * b)) / 2 := by
    have := Real.one_le_cosh (g2 * a)
    have := Real.one_le_cosh (g2 * b)
    linarith
  have h1le : 1 ≤ (Real.cosh (g1 * a) + Real.cosh (g1 * b)) / 2 := by
    have := Real.one_le_cosh (g1 * a)
    have := Real.one_le_cosh (g1 * b)
    linarith
  rw [← cosh_ach h2le] at hmid
  have habs := Real.cosh_lt_cosh.mp hmid
  have hach1 : 0 ≤ ach ((Real.cosh (g1 * a) + Real.cosh (g1 * b)) / 2) :=
    ach_nonneg h1le
  have hach2 : 0 ≤ ach ((Real.cosh (g2 * a) + Real.cosh (g2 * b)) / 2) :=
    ach_nonneg h2le
  rw [abs_of_nonneg (mul_nonneg (le_of_lt (lt_trans one_pos hr)) hach1),
    abs_of_nonneg hach2] at habs
  rw [div_lt_div_iff hg1 hg2]
  have h' := mul_lt_mul_of_pos_left habs hg1
  rw [show g1 * (g2 / g1 * ach ((Real.cosh (g1 * a) + Real.cosh (g1 * b)) / 2))
      = g2 * ach ((Real.cosh (g1 * a) + Real.cosh (g1 * b)) / 2) from by
    rw [← mul_assoc, mul_comm g1 (g2 / g1), div_mul_cancel₀ g2 (ne_of_gt hg1)]] at h'
  linarith

theorem k_exp_neg (y : ℝ) :
    (1 - Real.exp (-y)) ^ 2 / (2 * Real.exp (-y)) = Real.cosh y - 1 := by
  rw [Real.cosh_eq, Real.exp_neg]
  have h := Real.exp_ne_zero y
  field_simp
  ring

theorem phi_cosh {σ : ℝ} (hσ : 0 ≤ σ) :
    1 + (Real.cosh σ - 1)
        - Real.sqrt ((Real.cosh σ - 1) ^ 2 + 2 * (Real.cosh σ - 1))
      = Real.exp (-σ) := by
  rcases eq_or_lt_of_le hσ with h | h
  · rw [← h]
    simp
  · have h0 : 0 < Real.exp (-σ) := Real.exp_pos _
    have h1 : Real.exp (-σ) < 1 := Real.exp_lt_one_iff.mpr (by linarith)
    rw [← k_exp_neg σ]
    exact km_invert _ h0 h1

theorem rpow_half_le {p q : ℝ} (hp : 0 ≤ p) (hq : 0 ≤ q) (h : p ≤ q ^ 2) :
    p ^ ((1 : ℝ) / 2) ≤ q := by
  have h2 : (p ^ ((1 : ℝ) / 2)) ^ (2 : ℕ) = p := by
    rw [← Real.rpow_natCast (p ^ ((1 : ℝ) / 2)) 2, ← Real.rpow_mul hp]
    norm_num
  have hle : (p ^ ((1 : ℝ) / 2)) ^ (2 : ℕ) ≤ q ^ (2 : ℕ) := by
    rw [h2]
    exact h
  exact le_of_pow_le_pow_left₀ (by norm_num) hq hle

/-- On the calibration range 1/2 <= g <= 3 of `tune_gamma.py`, a base
reflectance p with epsilon <= p^3 and p <= (1-epsilon)^2 escapes both
epsilon clamps at every such exponent. -/
theorem rpow_clip_bounds {p g : ℝ} (hp0 : 0 < p) (hp1 : p ≤ 1)
    (hcube : epsilon ≤ p ^ (3 : ℕ)) (hsq : p ≤ (1 - epsilon) ^ 2)
    (hg1 : 1 / 2 ≤ g) (hg2 : g ≤ 3) :
    epsilon ≤ p ^ g ∧ p ^ g ≤ 1 - epsilon := by
  have hnat : p ^ ((3 : ℕ) : ℝ) = p ^ (3 : ℕ) := Real.rpow_natCast p 3
  rw [show ((3 : ℕ) : ℝ) = (3 : ℝ) from by norm_num] at hnat
  constructor
  · have h3 : p ^ (3 : ℝ) ≤ p ^ g := Real.rpow_le_rpow_of_exponent_ge hp0 hp1 hg2
    rw [← hnat] at hcube
    exact le_trans hcube h3
  · have hhalf : p ^ g ≤ p ^ ((1 : ℝ) / 2) :=
      Real.rpow_le_rpow_of_exponent_ge hp0 hp1 hg1
    exact le_trans hhalf (rpow_half_le hp0.le (by norm_num [epsilon]) hsq)

/-- Decoding the mixed Kubelka-Munk term at K = cosh sigma - 1: the lightness
channel reduces to a pure exponential in sigma / g. -/
theorem km_L_decode_eval {σ g : ℝ} (hσ : 0 ≤ σ) (hg : 0 < g) :
    np_clip (1 + (Real.cosh σ - 1)
        - Real.sqrt ((Real.cosh σ - 1) ^ 2 + 2 * (Real.cosh σ - 1))) 0 1 ^ g⁻¹ * 100
      = Real.exp (-(σ / g)) * 100 := by
  rw [phi_cosh hσ]
  have h0 : 0 ≤ Real.exp (-σ) := (Real.exp_pos _).le
  have h1 : Real.exp (-σ) ≤ 1 := Real.exp_le_one_iff.mpr (by linarith)
  rw [np_clip_eq_self h0 h1, ← Real.exp_mul,
    show -σ * g⁻¹ = -(σ / g) from by ring]

/-- The 50/50 white/black mix of the C9 scenario at a generic gamma in the
calibration range evaluates, on the lightness channel, to
100 * exp (-(sigma g / g)) where sigma g is the arcosh of the mean of two
cosh terms. -/
theorem km_L_eval {g : ℝ} (hg1 : 1 / 2 ≤ g) (hg2 : g ≤ 3) :
    (km_mix_val [⟨92.5, 0, 0⟩, ⟨15.3, 0, 0⟩] [0.5, 0.5] (some g)).L
      = Real.exp (-(ach ((Real.cosh (g * (-Real.log (37 / 40)))
            + Real.cosh (g * (-Real.log (153 / 1000)))) / 2) / g)) * 100 := by
  have hg0 : 0 < g := by linarith
  have hw := rpow_clip_bounds (p := (37 : ℝ) / 40) (by norm_num) (by norm_num)
    (by norm_num [epsilon]) (by norm_num [epsilon]) hg1 hg2
  have hb := rpow_clip_bounds (p := (153 : ℝ) / 1000) (by norm_num) (by norm_num)
    (by norm_num [epsilon]) (by norm_num [epsilon]) hg1 hg2
  have hclipw : np_clip (((92.5 / 100 : ℝ)) ^ g) epsilon (1 - epsilon)
      = ((92.5 / 100 : ℝ)) ^ g := by
    rw [show ((92.5 : ℝ) / 100) = 37 / 40 from by norm_num]
    exact np_clip_eq_self hw.1 hw.2
  have hclipb : np_clip (((15.3 / 100 : ℝ)) ^ g) epsilon (1 - epsilon)
      = ((15.3 / 100 : ℝ)) ^ g := by
    rw [show ((15.3 : ℝ) / 100) = 153 / 1000 from by norm_num]
    exact np_clip_eq_self hb.1 hb.2
  have hval : km_mix_val [⟨92.5, 0, 0⟩, ⟨15.3, 0, 0⟩] [0.5, 0.5] (some g)
      = km_mix_core [⟨92.5, 0, 0⟩, ⟨15.3, 0, 0⟩] [0.5, 0.5] g := by
    simp only [km_mix_val, kubelka_munk_mix, List.sum_cons, List.sum_nil,
      List.length_cons, List.length_nil, Option.getD_some]
    norm_num [Except.toOption]
  have hwexp : ((37 / 40 : ℝ)) ^ g = Real.exp (-(g * (-Real.log (37 / 40)))) := by
    rw [Real.rpow_def_of_pos (by norm_num : (0 : ℝ) < 37 / 40)]
    congr 1
    ring
  have hbexp : ((153 / 1000 : ℝ)) ^ g
      = Real.exp (-(g * (-Real.log (153 / 1000)))) := by
    rw [Real.rpow_def_of_pos (by norm_num : (0 : ℝ) < 153 / 1000)]
    congr 1
    ring
  have hkw : (1 - ((37 / 40 : ℝ)) ^ g) ^ 2 / (2 * ((37 / 40 : ℝ)) ^ g)
      = Real.cosh (g * (-Real.log (37 / 40))) - 1 := by
    rw [hwexp]
    exact k_exp_neg _
  have hkb : (1 - ((153 / 1000 : ℝ)) ^ g) ^ 2 / (2 * ((153 / 1000 : ℝ)) ^ g)
      = Real.cosh (g * (-Real.log (153 / 1000))) - 1 := by
    rw [hbexp]
    exact k_exp_neg _
  have hmid1 : 1 ≤ (Real.cosh (g * (-Real.log (37 / 40)))
      + Real.cosh (g * (-Real.log (153 / 1000)))) / 2 := by
    have := Real.one_le_cosh (g * (-Real.log (37 / 40)))
    have := Real.one_le_cosh (g * (-Real.log (153 / 1000)))
    linarith
  rw [hval]
  simp only [km_mix_core, List.map_cons, List.map_nil, List.sum_cons, List.sum_nil,
    np_dot, np_mul, List.length_cons, List.length_nil, List.zipWith_cons_cons,
    List.zipWith_nil_right, hclipw, hclipb]
  norm_num
  rw [show g * -Real.log (37 / 40) = -(g * Real.log (37 / 40)) from by ring,
    Real.cosh_neg] at hkw
  rw [show g * -Real.log (153 / 1000) = -(g * Real.log (153 / 1000)) from by ring,
    Real.cosh_neg] at hkb
  rw [show g * -Real.log (37 / 40) = -(g * Real.log (37 / 40)) from by ring,
    show g * -Real.log (153 / 1000) = -(g * Real.log (153 / 1000)) from by ring,
    Real.cosh_neg, Real.cosh_neg] at hmid1
  have hK : (1 - (37 / 40 : ℝ) ^ g) ^ 2 / (2 * (37 / 40 : ℝ) ^ g) * (1 / 2) +
      (1 - (153 / 1000 : ℝ) ^ g) ^ 2 / (2 * (153 / 1000 : ℝ) ^ g) * (1 / 2)
      = Real.cosh (ach ((Real.cosh (g * Real.log (37 / 40))
          + Real.cosh (g * Real.log (153 / 1000))) / 2)) - 1 := by
    rw [hkw, hkb, cosh_ach hmid1]
    ring
  rw [hK]
  exact mul_right_cancel₀ (by norm_num : (100 : ℝ) ≠ 0)
    (km_L_decode_eval (ach_nonneg hmid1) hg0)

/-- C9.  Monotonic gamma effect: for the fixed 50/50 white (92.5,0,0) /
black (15.3,0,0) mix, the lightness returned by `kubelka_munk_mix` is
strictly decreasing in gamma throughout the calibration range [0.5, 3.0]
searched by `tune_gamma.py` (the model's valid gamma range): for every
g1 < g2 in that range, the mixed L at g2 is strictly below the mixed L at
g1. -/
theorem C9_gamma_monotone {g1 g2 : ℝ} (h1 : 1 / 2 ≤ g1) (h12 : g1 < g2)
    (h2 : g2 ≤ 3) :
    (km_mix_val [⟨92.5, 0, 0⟩, ⟨15.3, 0, 0⟩] [0.5, 0.5] (some g2)).L
      < (km_mix_val [⟨92.5, 0, 0⟩, ⟨15.3, 0, 0⟩] [0.5, 0.5] (some g1)).L := by
  rw [km_L_eval h1 (le_trans (le_of_lt h12) h2),
    km_L_eval (le_trans h1 (le_of_lt h12)) h2]
  have ha : 0 < -Real.log (37 / 40) := by
    have := Real.log_neg (by norm_num : (0 : ℝ) < 37 / 40)
      (by norm_num : (37 : ℝ) / 40 < 1)
    linarith
  have hb : 0 < -Real.log (153 / 1000) := by
    have := Real.log_neg (by norm_num : (0 : ℝ) < 153 / 1000)
      (by norm_num : (153 : ℝ) / 1000 < 1)
    linarith
  have hab : -Real.log (37 / 40) ≠ -Real.log (153 / 1000) := by
    have := Real.log_lt_log (by norm_num : (0 : ℝ) < 153 / 1000)
      (by norm_num : (153 : ℝ) / 1000 < 37 / 40)
    intro h
    linarith [neg_injective h]
  have hσ := sigma_div_strictMono ha hb hab
    (lt_of_lt_of_le (by norm_num) h1) h12
  have hexp := Real.exp_lt_exp.mpr (neg_lt_neg hσ)
  exact mul_lt_mul_of_pos_right hexp (by norm_num)

theorem C9_gamma_monotone_witness :
    (1 : ℝ) / 2 ≤ 1 ∧ (1 : ℝ) < 2 ∧ (2 : ℝ) ≤ 3 ∧
      (km_mix_val [⟨92.5, 0, 0⟩, ⟨15.3, 0, 0⟩] [0.5, 0.5] (some 2)).L
        < (km_mix_val [⟨92.5, 0, 0⟩, ⟨15.3, 0, 0⟩] [0.5, 0.5] (some 1)).L :=
  ⟨by norm_num, by norm_num, by norm_num,
    C9_gamma_monotone (by norm_num) (by norm_num) (by norm_num)⟩

/-! Claim C10: the dilution fraction has no effect on the optimized path. -/

/-- C10.  Two calls to `find_best_mix_optimized` that differ only in the
`thinner_ratio` argument return identical results for every target, catalog,
pigment bound and exclusion setting (in particular for any dilution fractions
in [0,1)): the parameter is accepted at the interface and never used in the
optimized search path. -/
theorem C10_thinner_independent (target_lab : LabColor)
    (available_colors : List PigmentRow) (max_colors : ℕ)
    (exclude_metallic exclude_white_black : Bool) (t1 t2 : ℝ) :
    find_best_mix_optimized target_lab available_colors max_colors
        exclude_metallic exclude_white_black t1 =
      find_best_mix_optimized target_lab available_colors max_colors
        exclude_metallic exclude_white_black t2 := rfl

end PlamoMixer
